import Mathlib

set_option linter.unusedVariables false

/-! Shallow embedding of the activity-decision engine of
`predictor_call.py`: the one-hot sequence encoder (`onehot`,
`_model_input_from_nt`), the classify-then-regress decision policy
(`_classify_and_decide`, `_regress`, `_combine_model_results`), and the
locus-keyed memoization cache of the `Predictor` class
(`_run_models_and_memoize`, `determine_highly_active`,
`compute_activity`, `cleanup_memoized`).

Modelling conventions:
* nucleotide strings are `List Char`; floats are `Rat`;
* the two opaque scoring models are fields of type `EncodedInput → Rat`
  (the model adapter `_predict_from_onehot` maps them over a batch);
* Python dicts are association lists with unique keys (`alookup`,
  `aupdate`, `aerase` mirror access, assignment, and `del`);
* Python `set(pairs)` is `unique_pairs` (one occurrence of each distinct
  pair; the iteration order of a Python set is unspecified, so the
  embedding fixes one enumeration order — with guides of one common
  length, the regime the program is used in, per-pair results do not
  depend on that order, while with mixed guide lengths the numpy
  broadcast modelled in `store_encoding` makes the evaluated batch, and
  hence the stored results, depend on which pair comes first);
* raised exceptions (`KeyError` in `onehot`, `AssertionError` on length
  asserts and the merge-count assert, numpy shape errors on `x[i] =`,
  `ValueError` on thresholds) become `Except PredError`. -/

/-- Errors the Python code can raise while validating, encoding or
combining results. `memoKeyError` models the dict `KeyError` that a
`mem[pair]` readback would raise were the pair not memoized. -/
inductive PredError where
  | keyError (b : Char)
  | assertionError
  | shapeError
  | valueError
  | memoKeyError
  deriving DecidableEq

/-- A nucleotide sequence (a Python string). -/
abbrev Nt := List Char

/-- A guide-target pair `(target_with_context, guide)`. -/
abbrev Pair := Nt × Nt

/-- One encoded pair: a matrix with one 8-wide row per sequence position. -/
abbrev EncodedInput := List (List Rat)

/-- Association-list lookup, modelling Python dict access `d[k]`. -/
def alookup {α β : Type} [DecidableEq α] (k : α) : List (α × β) → Option β
  | [] => none
  | (a, b) :: t => if a = k then some b else alookup k t

/-- Association-list insert-or-update, modelling Python `d[k] = v`. -/
def aupdate {α β : Type} [DecidableEq α] (k : α) (v : β) : List (α × β) → List (α × β)
  | [] => [(k, v)]
  | (a, b) :: t => if a = k then (k, v) :: t else (a, b) :: aupdate k v t

/-- Association-list removal, modelling Python `del d[k]`. -/
def aerase {α β : Type} [DecidableEq α] (k : α) : List (α × β) → List (α × β)
  | [] => []
  | (a, b) :: t => if a = k then t else (a, b) :: aerase k t

/-- Error-propagating map over a list, used for the Python `for` loops
that build encodings and read results back out of the cache. -/
def mapE {α β : Type} (f : α → Except PredError β) : List α → Except PredError (List β)
  | [] => .ok []
  | a :: t =>
    match f a with
    | .error e => .error e
    | .ok b =>
      match mapE f t with
      | .error e => .error e
      | .ok bs => .ok (b :: bs)

/-- The `FASTA_CODES` table: IUPAC code → set of real bases represented. -/
def FASTA_CODES_table : List (Char × List Char) :=
  [('A', ['A']), ('T', ['T']), ('C', ['C']), ('G', ['G']),
   ('K', ['G', 'T']), ('M', ['A', 'C']), ('R', ['A', 'G']),
   ('Y', ['C', 'T']), ('S', ['C', 'G']), ('W', ['A', 'T']),
   ('B', ['C', 'G', 'T']), ('V', ['A', 'C', 'G']), ('H', ['A', 'C', 'T']),
   ('D', ['A', 'G', 'T']), ('N', ['A', 'T', 'C', 'G'])]

/-- `FASTA_CODES[b]` as a partial lookup (Python raises `KeyError` on a
character outside the table). -/
def FASTA_CODES (b : Char) : Option (List Char) :=
  alookup b FASTA_CODES_table

/-- The `onehot_idx` channel table: `{'A': 0, 'C': 1, 'G': 2, 'T': 3}`. -/
def onehot_idx : List (Char × Nat) :=
  [('A', 0), ('C', 1), ('G', 2), ('T', 3)]

/-- The loop body of `onehot`: for each represented real base, assert it
has a channel and set that channel to `1 / |real_bases|`. -/
def onehot_fill (n : Nat) : List Char → List Rat → Except PredError (List Rat)
  | [], v => .ok v
  | b :: rest, v =>
    match alookup b onehot_idx with
    | none => .error .assertionError
    | some i => onehot_fill n rest (v.set i (1 / (n : Rat)))

/-- `onehot(b)`: a 4-wide vector with weight `1/|real_bases|` on each
represented base's channel; `KeyError b` outside the table. -/
def onehot (b : Char) : Except PredError (List Rat) :=
  match FASTA_CODES b with
  | none => .error (.keyError b)
  | some real_bases => onehot_fill real_bases.length real_bases [0, 0, 0, 0]

/-- One context-flank row of `_model_input_from_nt`: target one-hot in
columns 0-3, all-zero guide half in columns 4-7. -/
def encode_row_ctx (t : Nt) (pos : Nat) : Except PredError (List Rat) := do
  let v_target ← onehot (t.getD pos ' ')
  pure (v_target ++ [0, 0, 0, 0])

/-- One guide-window row of `_model_input_from_nt`: target one-hot in
columns 0-3 and guide one-hot in columns 4-7. -/
def encode_row_pair (t g : Nt) (c pos : Nat) : Except PredError (List Rat) := do
  let v_target ← onehot (t.getD (c + pos) ' ')
  let v_guide ← onehot (g.getD pos ' ')
  pure (v_target ++ v_guide)

/-- The per-pair body of the loop in `_model_input_from_nt`: the length
assert, then `context_nt` leading context rows, `len(guide)` paired
rows, and `context_nt` trailing context rows, in 5'-to-3' order. -/
def encode_pair (c : Nat) (t g : Nt) : Except PredError EncodedInput :=
  if t.length = 2 * c + g.length then do
    let ctx5 ← mapE (fun pos => encode_row_ctx t pos) (List.range c)
    let mid ← mapE (fun pos => encode_row_pair t g c pos) (List.range g.length)
    let ctx3 ← mapE (fun pos => encode_row_ctx t (c + g.length + pos)) (List.range c)
    pure (ctx5 ++ mid ++ ctx3)
  else .error .assertionError

/-- The numpy assignment `x[i] = input_vec` into the `(l, 8)` slot of
the batch matrix, with numpy's broadcasting rules: an encoding with
exactly `l` rows is stored as is; a single-row encoding (numpy shape
`(1, 8)`) is silently broadcast — the row is replicated across the `l`
rows; an empty encoding (`np.array([])` has shape `(0,)`) and any other
row count cannot be broadcast into `(l, 8)` and raise a shape error.
Each row is always 8 wide, so the trailing dimension always matches. -/
def store_encoding (l : Nat) (e : EncodedInput) : Except PredError EncodedInput :=
  if e.length = 1 then pure (List.replicate l (e.getD 0 []))
  else if e.length = l ∧ e.length ≠ 0 then pure e
  else .error .shapeError

/-- `_model_input_from_nt(pairs)`: empty batch short-circuits; otherwise
the batch matrix is sized from the first pair's guide length
(`l = 2*context_nt + len(pairs[0][1])`) and each pair's encoding is
written into its `(l, 8)` slot by the numpy assignment modelled by
`store_encoding`. -/
def model_input_from_nt (c : Nat) (pairs : List Pair) : Except PredError (List EncodedInput) :=
  match pairs with
  | [] => .ok []
  | p0 :: _ =>
    mapE (fun pr => do
      let e ← encode_pair c pr.1 pr.2
      store_encoding (2 * c + p0.2.length) e) pairs

/-- `self.regression_lower_bound = 0.0`. -/
def regression_lower_bound : Rat := 0

/-- `self.regression_shift = 4.0`. -/
def regression_shift : Rat := 4

/-- The mutable state and configuration of the Python `Predictor`
object. The two Keras models are opaque scorers: functions from one
encoded input to a scalar (`_predict_from_onehot` maps them over a
batch). `memoized_evaluations` is the dict-of-dicts
`{start_pos: {pair: (activity, highly_active)}}`. -/
structure Predictor where
  context_nt : Nat
  classification_threshold : Rat
  regression_threshold : Rat
  classification_model : EncodedInput → Rat
  regression_model : EncodedInput → Rat
  memoized_evaluations : List (Int × List (Pair × (Rat × Bool)))

/-- `_predict_from_onehot`: one scalar output per encoded input, in
order. -/
def predict_from_onehot (model : EncodedInput → Rat) (pairs_onehot : List EncodedInput) :
    List Rat :=
  pairs_onehot.map model

/-- `_classify_and_decide`: empty batch short-circuits; otherwise each
pair is active iff its classification score is `>=` the threshold. -/
def classify_and_decide (P : Predictor) (pairs_onehot : List EncodedInput) : List Bool :=
  if pairs_onehot.length = 0 then []
  else (predict_from_onehot P.classification_model pairs_onehot).map
    (fun p => decide (P.classification_threshold ≤ p))

/-- `_regress`: empty batch short-circuits; otherwise raw outputs are
shifted up by `regression_shift` and floored at
`regression_lower_bound`. -/
def regress (P : Predictor) (pairs_onehot : List EncodedInput) : List Rat :=
  if pairs_onehot.length = 0 then []
  else (predict_from_onehot P.regression_model pairs_onehot).map
    (fun p => max regression_lower_bound (p + regression_shift))

/-- The active-subset comprehension of `_run_models_and_memoize`:
`[oh for oh, p in zip(pairs_onehot, classification_results) if p is True]`. -/
def active_onehots (pairs_onehot : List EncodedInput) (classification_results : List Bool) :
    List EncodedInput :=
  ((pairs_onehot.zip classification_results).filter (fun x => x.2)).map (fun x => x.1)

/-- `_combine_model_results`: walk the classification decisions keeping
a running index `j` into the regression outputs; an inactive pair yields
`(0, False)`, an active pair consumes the next regression output `r`
yielding `(r, r >= regression_threshold)`. `none` models the `IndexError`
when the regression outputs run out and the final
`assert j == len(regression_results)`. -/
def combine_model_results (regression_threshold : Rat) :
    List Bool → List Rat → Option (List (Rat × Bool))
  | [], regression_results =>
    if regression_results.length = 0 then some [] else none
  | false :: cs, regression_results =>
    (combine_model_results regression_threshold cs regression_results).map
      (fun rest => (0, false) :: rest)
  | true :: cs, [] => none
  | true :: cs, r :: rs =>
    (combine_model_results regression_threshold cs rs).map
      (fun rest => (r, decide (regression_threshold ≤ r)) :: rest)

/-- The per-pair content of the decision policy: what
`_run_models_and_memoize` computes for one encoded pair. -/
def combine_one (P : Predictor) (oh : EncodedInput) : Rat × Bool :=
  if P.classification_threshold ≤ P.classification_model oh then
    let a := max regression_lower_bound (P.regression_model oh + regression_shift)
    (a, decide (P.regression_threshold ≤ a))
  else (0, false)

/-- The decision-policy results for a whole encoded batch. -/
def combined_of (P : Predictor) (ohs : List EncodedInput) : List (Rat × Bool) :=
  ohs.map (combine_one P)

/-- The locus sub-map `self._memoized_evaluations[start_pos]` (empty
when the locus is absent). -/
def memAt (P : Predictor) (start_pos : Int) : List (Pair × (Rat × Bool)) :=
  (alookup start_pos P.memoized_evaluations).getD []

/-- `if start_pos not in self._memoized_evaluations:
self._memoized_evaluations[start_pos] = {}`. -/
def ensure_locus (P : Predictor) (start_pos : Int) : Predictor :=
  if (alookup start_pos P.memoized_evaluations).isSome then P
  else { P with memoized_evaluations := aupdate start_pos [] P.memoized_evaluations }

/-- Write a batch of `(pair, result)` entries into a locus sub-map:
`for pair, r in zip(pairs, combined_results): mem[pair] = r`. -/
def mem_write (updates : List (Pair × (Rat × Bool))) (mem : List (Pair × (Rat × Bool))) :
    List (Pair × (Rat × Bool)) :=
  updates.foldl (fun m u => aupdate u.1 u.2 m) mem

/-- `_run_models_and_memoize(start_pos, pairs)`: encode all pairs, run
classification on the whole batch, regression on the active subset
only, combine, and memoize each pair's result under `start_pos`.
(In Python `mem` aliases the dict stored in `_memoized_evaluations`, so
mutating `mem` updates the predictor's state; here the updated predictor
is returned.) -/
def run_models_and_memoize (P : Predictor) (start_pos : Int) (pairs : List Pair) :
    Except PredError Predictor :=
  match model_input_from_nt P.context_nt pairs with
  | .error e => .error e
  | .ok pairs_onehot =>
    let classification_results := classify_and_decide P pairs_onehot
    let pairs_onehot_active := active_onehots pairs_onehot classification_results
    let regression_results := regress P pairs_onehot_active
    match combine_model_results P.regression_threshold classification_results
        regression_results with
    | none => .error .assertionError
    | some combined_results =>
      let P1 := ensure_locus P start_pos
      let mem := memAt P1 start_pos
      let mem2 := mem_write (pairs.zip combined_results) mem
      .ok { P1 with memoized_evaluations := aupdate start_pos mem2 P1.memoized_evaluations }

/-- Python `set(pairs)`: one occurrence of each distinct pair. The
iteration order of a Python set is unspecified; every per-pair result
proved below is independent of the order chosen here. -/
def unique_pairs : List Pair → List Pair
  | [] => []
  | p :: rest =>
    let u := unique_pairs rest
    if p ∈ u then u else p :: u

/-- The deduplicated not-yet-cached subset both query operations
evaluate: `[pair for pair in set(pairs) if pair not in mem]`. -/
def pairs_to_evaluate (P : Predictor) (start_pos : Int) (pairs : List Pair) : List Pair :=
  (unique_pairs pairs).filter (fun pair => (alookup pair (memAt P start_pos)).isNone)

/-- Read one pair's `highly_active` flag out of a locus sub-map:
`mem[pair][1]` (a missing key would be a dict `KeyError`). -/
def read_highly (mem : List (Pair × (Rat × Bool))) (pair : Pair) :
    Except PredError Bool :=
  match alookup pair mem with
  | some r => .ok r.2
  | none => .error .memoKeyError

/-- Read one pair's activity out of a locus sub-map: `mem[pair][0]`. -/
def read_activity (mem : List (Pair × (Rat × Bool))) (pair : Pair) :
    Except PredError Rat :=
  match alookup pair mem with
  | some r => .ok r.1
  | none => .error .memoKeyError

/-- `determine_highly_active(start_pos, pairs)`: evaluate the uncached
deduplicated subset, then read every requested pair's `highly_active`
flag back out of the cache. -/
def determine_highly_active (P : Predictor) (start_pos : Int) (pairs : List Pair) :
    Except PredError (Predictor × List Bool) :=
  let P1 := ensure_locus P start_pos
  let unique_pairs_to_evaluate := pairs_to_evaluate P1 start_pos pairs
  match run_models_and_memoize P1 start_pos unique_pairs_to_evaluate with
  | .error e => .error e
  | .ok P2 =>
    match mapE (read_highly (memAt P2 start_pos)) pairs with
    | .error e => .error e
    | .ok res => .ok (P2, res)

/-- `compute_activity(start_pos, pairs)`: evaluate the uncached
deduplicated subset, then read every requested pair's activity back out
of the cache. (The Python local `mem` aliases the locus dict that
`_run_models_and_memoize` mutates in place, so the readback sees the
updated entries; here that is the re-read of `memAt` after the call.) -/
def compute_activity (P : Predictor) (start_pos : Int) (pairs : List Pair) :
    Except PredError (Predictor × List Rat) :=
  let P1 := ensure_locus P start_pos
  let unique_pairs_to_evaluate := pairs_to_evaluate P1 start_pos pairs
  match run_models_and_memoize P1 start_pos unique_pairs_to_evaluate with
  | .error e => .error e
  | .ok P2 =>
    match mapE (read_activity (memAt P2 start_pos)) pairs with
    | .error e => .error e
    | .ok res => .ok (P2, res)

/-- `cleanup_memoized(start_pos)`: drop the locus sub-map if present. -/
def cleanup_memoized (P : Predictor) (start_pos : Int) : Predictor :=
  if (alookup start_pos P.memoized_evaluations).isSome then
    { P with memoized_evaluations := aerase start_pos P.memoized_evaluations }
  else P

/-- The threshold validation of `Predictor.__init__`. The companion
metadata files are external inputs; the single float each holds is
passed in as `classification_default` / `regression_default`. A
caller-supplied classification threshold outside `[0,1]` and a
caller-supplied regression threshold `< 0` raise `ValueError`; a default
classification threshold outside `[0,1]` fails the assert; a default
regression threshold is shifted by `regression_shift` before being
stored and the stored value must exceed `regression_lower_bound`. -/
def init_thresholds (classification_threshold_arg : Option Rat)
    (regression_threshold_arg : Option Rat)
    (classification_default : Rat) (regression_default : Rat) :
    Except PredError (Rat × Rat) :=
  match classification_threshold_arg with
  | none =>
    if 0 ≤ classification_default ∧ classification_default ≤ 1 then
      init_thresholds_reg classification_default regression_threshold_arg regression_default
    else .error .assertionError
  | some c =>
    if c < 0 ∨ 1 < c then .error .valueError
    else init_thresholds_reg c regression_threshold_arg regression_default
where
  init_thresholds_reg (ct : Rat) (regression_threshold_arg : Option Rat)
      (regression_default : Rat) : Except PredError (Rat × Rat) :=
    match regression_threshold_arg with
    | none =>
      let shifted := regression_default + regression_shift
      if regression_lower_bound < shifted then .ok (ct, shifted)
      else .error .assertionError
    | some r =>
      if r < 0 then .error .valueError else .ok (ct, r)

/-- The fresh (cache-free) decision-policy result for a single pair:
its encoding fed through `combine_one`. -/
def eval_pair (P : Predictor) (pr : Pair) : Except PredError (Rat × Bool) :=
  (encode_pair P.context_nt pr.1 pr.2).map (combine_one P)

/-- A cache state is consistent when every memoized entry equals the
fresh decision-policy result for its pair — true of every state the
`Predictor` can reach, since entries are only ever written from model
outputs. -/
def consistent (P : Predictor) : Prop :=
  ∀ s pr r, alookup pr (memAt P s) = some r → eval_pair P pr = .ok r

/-- Decidable equality for `Except` results. -/
def exceptDecEq {ε α : Type} [DecidableEq ε] [DecidableEq α] :
    (x y : Except ε α) → Decidable (x = y)
  | .error a, .error b =>
    if h : a = b then .isTrue (by rw [h]) else .isFalse (fun hc => h (by cases hc; rfl))
  | .error a, .ok b => .isFalse (fun hc => by cases hc)
  | .ok a, .error b => .isFalse (fun hc => by cases hc)
  | .ok a, .ok b =>
    if h : a = b then .isTrue (by rw [h]) else .isFalse (fun hc => h (by cases hc; rfl))

instance {ε α : Type} [DecidableEq ε] [DecidableEq α] : DecidableEq (Except ε α) :=
  exceptDecEq

/-- The predictor state `_run_models_and_memoize` produces on success
from the encodings `ohs` of `prs`: every `(pair, result)` entry written
into the locus sub-map of `start_pos`. -/
def memo_store (P : Predictor) (start_pos : Int) (prs : List Pair)
    (ohs : List EncodedInput) : Predictor :=
  let P1 := ensure_locus P start_pos
  let mem2 := mem_write (prs.zip (combined_of P ohs)) (memAt P start_pos)
  { P1 with memoized_evaluations := aupdate start_pos mem2 P1.memoized_evaluations }

/-- A concrete pair used to exercise the engine. -/
def test_pair : Pair := (['A'], ['A'])

/-- A concrete encoded input used to exercise the decision policy. -/
def test_oh : EncodedInput := [[1, 0, 0, 0, 1, 0, 0, 0]]

/-- A concrete predictor whose classifier scores every input 0.9 and
whose regressor outputs -3: pairs come out active and highly active
(the end-to-end scenario of the spec). -/
def test_predictor : Predictor :=
  { context_nt := 0
    classification_threshold := 1/2
    regression_threshold := 4/5
    classification_model := fun _ => 9/10
    regression_model := fun _ => -3
    memoized_evaluations := [] }

/-- A concrete predictor whose regressor outputs -5: pairs come out
active but the shifted activity is floored to 0. -/
def floor_predictor : Predictor :=
  { context_nt := 0
    classification_threshold := 1/2
    regression_threshold := 4/5
    classification_model := fun _ => 9/10
    regression_model := fun _ => -5
    memoized_evaluations := [] }

/-- A concrete predictor whose classifier scores every input 0.2:
pairs come out inactive. -/
def inactive_predictor : Predictor :=
  { context_nt := 0
    classification_threshold := 1/2
    regression_threshold := 4/5
    classification_model := fun _ => 1/5
    regression_model := fun _ => -3
    memoized_evaluations := [] }

/-- A concrete two-base pair: guide length 2, so with `context_nt = 0`
its encoding has two rows. -/
def test_pair2 : Pair := (['A', 'C'], ['A', 'C'])

/-- A concrete predictor whose regressor output depends on the number of
rows of the encoding it sees (-3 on a single row, -2 otherwise), and
whose cache already holds `test_pair2`'s fresh result at locus 0. It
exposes the numpy broadcast: evaluating `test_pair` alone feeds the
model one row, while evaluating it in a batch sized for guide length 2
feeds it the row replicated twice. -/
def broadcast_predictor : Predictor :=
  { context_nt := 0
    classification_threshold := 1/2
    regression_threshold := 4/5
    classification_model := fun _ => 9/10
    regression_model := fun oh => if oh.length = 1 then -3 else -2
    memoized_evaluations := [(0, [(test_pair2, (2, true))])] }

/-- The weight vector the spec ascribes to a base: `1/|real_bases|` on
each represented base's channel and 0 elsewhere. -/
def onehot_weights (bases : List Char) : List Rat :=
  [if 'A' ∈ bases then 1 / (bases.length : Rat) else 0,
   if 'C' ∈ bases then 1 / (bases.length : Rat) else 0,
   if 'G' ∈ bases then 1 / (bases.length : Rat) else 0,
   if 'T' ∈ bases then 1 / (bases.length : Rat) else 0]

/-! ### Association-list lemmas -/

theorem alookup_aupdate_self {α β : Type} [DecidableEq α] (k : α) (v : β)
    (l : List (α × β)) : alookup k (aupdate k v l) = some v := by
  induction l with
  | nil => simp [aupdate, alookup]
  | cons hd t ih =>
    obtain ⟨a, b⟩ := hd
    by_cases hak : a = k
    · simp [aupdate, hak, alookup]
    · simp [aupdate, hak, alookup, ih]

theorem alookup_aupdate_ne {α β : Type} [DecidableEq α] {k k' : α} (v : β)
    (l : List (α × β)) (h : k' ≠ k) :
    alookup k' (aupdate k v l) = alookup k' l := by
  have hkk : k ≠ k' := fun hc => h hc.symm
  induction l with
  | nil => simp [aupdate, alookup, hkk]
  | cons hd t ih =>
    obtain ⟨a, b⟩ := hd
    by_cases hak : a = k
    · subst hak
      simp [aupdate, alookup, hkk]
    · by_cases hak' : a = k'
      · subst hak'
        simp [aupdate, alookup, h]
      · simp [aupdate, if_neg hak, alookup, hak', ih]

theorem alookup_aerase_ne {α β : Type} [DecidableEq α] {k k' : α}
    (l : List (α × β)) (h : k' ≠ k) :
    alookup k' (aerase k l) = alookup k' l := by
  have hkk : k ≠ k' := fun hc => h hc.symm
  induction l with
  | nil => simp [aerase, alookup]
  | cons hd t ih =>
    obtain ⟨a, b⟩ := hd
    by_cases hak : a = k
    · subst hak
      simp [aerase, alookup, hkk]
    · by_cases hak' : a = k'
      · subst hak'
        simp [aerase, alookup, h]
      · simp [aerase, if_neg hak, alookup, hak', ih]

theorem alookup_eq_none_of_not_mem_keys {α β : Type} [DecidableEq α] {k : α}
    {l : List (α × β)} (h : k ∉ l.map Prod.fst) : alookup k l = none := by
  induction l with
  | nil => simp [alookup]
  | cons hd t ih =>
    obtain ⟨a, b⟩ := hd
    simp only [List.map_cons, List.mem_cons] at h
    push_neg at h
    have hak : a ≠ k := fun hc => h.1 hc.symm
    simp [alookup, hak, ih h.2]

theorem alookup_aerase_self {α β : Type} [DecidableEq α] (k : α)
    (l : List (α × β)) (hnd : (l.map Prod.fst).Nodup) :
    alookup k (aerase k l) = none := by
  induction l with
  | nil => simp [aerase, alookup]
  | cons hd t ih =>
    obtain ⟨a, b⟩ := hd
    simp only [List.map_cons, List.nodup_cons] at hnd
    by_cases hak : a = k
    · subst hak
      simp only [aerase, if_pos rfl]
      exact alookup_eq_none_of_not_mem_keys hnd.1
    · simp [aerase, hak, alookup, ih hnd.2]

theorem alookup_mem {α β : Type} [DecidableEq α] {k : α} {v : β}
    {l : List (α × β)} (h : alookup k l = some v) : (k, v) ∈ l := by
  induction l with
  | nil => simp [alookup] at h
  | cons hd t ih =>
    obtain ⟨a, b⟩ := hd
    by_cases hak : a = k
    · subst hak
      simp [alookup] at h
      subst h
      exact List.mem_cons_self _ _
    · simp only [alookup, if_neg hak] at h
      exact List.mem_cons_of_mem _ (ih h)

theorem alookup_mem_write_not_mem {k : Pair}
    (updates : List (Pair × (Rat × Bool))) (m : List (Pair × (Rat × Bool)))
    (h : k ∉ updates.map Prod.fst) :
    alookup k (mem_write updates m) = alookup k m := by
  induction updates generalizing m with
  | nil => rfl
  | cons hd t ih =>
    obtain ⟨a, b⟩ := hd
    simp only [List.map_cons, List.mem_cons] at h
    push_neg at h
    show alookup k (mem_write t (aupdate a b m)) = alookup k m
    rw [ih _ h.2, alookup_aupdate_ne b m h.1]

theorem alookup_mem_write_isSome {k : Pair}
    (updates : List (Pair × (Rat × Bool))) (m : List (Pair × (Rat × Bool)))
    (h : k ∈ updates.map Prod.fst ∨ (alookup k m).isSome) :
    (alookup k (mem_write updates m)).isSome := by
  induction updates generalizing m with
  | nil =>
    simp only [List.map_nil, List.not_mem_nil, false_or] at h
    exact h
  | cons hd t ih =>
    obtain ⟨a, b⟩ := hd
    show (alookup k (mem_write t (aupdate a b m))).isSome
    rcases h with h | h
    · simp only [List.map_cons, List.mem_cons] at h
      rcases h with h | h
      · subst h
        exact ih _ (Or.inr (by rw [alookup_aupdate_self]; rfl))
      · exact ih _ (Or.inl h)
    · by_cases hk : k = a
      · subst hk
        exact ih _ (Or.inr (by rw [alookup_aupdate_self]; rfl))
      · exact ih _ (Or.inr (by rw [alookup_aupdate_ne b m hk]; exact h))

theorem alookup_mem_write_of_mem {k : Pair} {v : Rat × Bool}
    (updates : List (Pair × (Rat × Bool))) (m : List (Pair × (Rat × Bool)))
    (hnd : (updates.map Prod.fst).Nodup) (h : (k, v) ∈ updates) :
    alookup k (mem_write updates m) = some v := by
  induction updates generalizing m with
  | nil => simp at h
  | cons hd t ih =>
    obtain ⟨a, b⟩ := hd
    simp only [List.map_cons, List.nodup_cons] at hnd
    show alookup k (mem_write t (aupdate a b m)) = some v
    rcases List.mem_cons.mp h with heq | hmem
    · cases heq
      rw [alookup_mem_write_not_mem t _ hnd.1, alookup_aupdate_self]
    · exact ih _ hnd.2 hmem

/-! ### mapE lemmas -/

theorem mapE_ok_length {α β : Type} {f : α → Except PredError β} {l : List α}
    {out : List β} (h : mapE f l = .ok out) : out.length = l.length := by
  induction l generalizing out with
  | nil =>
    simp only [mapE, Except.ok.injEq] at h
    subst h
    rfl
  | cons a t ih =>
    simp only [mapE] at h
    cases hfa : f a with
    | error e => rw [hfa] at h; exact Except.noConfusion h
    | ok b =>
      rw [hfa] at h
      cases hmt : mapE f t with
      | error e => rw [hmt] at h; exact Except.noConfusion h
      | ok bs =>
        rw [hmt] at h
        simp only [Except.ok.injEq] at h
        subst h
        simp [ih hmt]

theorem mapE_ok_get {α β : Type} {f : α → Except PredError β} {l : List α}
    {out : List β} {i : Nat} {a : α} (h : mapE f l = .ok out)
    (hi : l.get? i = some a) : ∃ b, f a = .ok b ∧ out.get? i = some b := by
  induction l generalizing out i with
  | nil => simp at hi
  | cons x t ih =>
    simp only [mapE] at h
    cases hfa : f x with
    | error e => rw [hfa] at h; exact Except.noConfusion h
    | ok b =>
      rw [hfa] at h
      cases hmt : mapE f t with
      | error e => rw [hmt] at h; exact Except.noConfusion h
      | ok bs =>
        rw [hmt] at h
        simp only [Except.ok.injEq] at h
        subst h
        cases i with
        | zero =>
          simp only [List.get?] at hi
          cases hi
          exact ⟨b, hfa, rfl⟩
        | succ n =>
          simp only [List.get?] at hi
          simpa using ih hmt hi

theorem mapE_ok_forall {α β : Type} {f : α → Except PredError β} {l : List α}
    {out : List β} (h : mapE f l = .ok out) :
    ∀ a ∈ l, ∃ b, f a = .ok b := by
  intro a ha
  obtain ⟨i, hi⟩ := List.mem_iff_get?.mp ha
  obtain ⟨b, hb, _⟩ := mapE_ok_get h hi
  exact ⟨b, hb⟩

theorem mapE_ok_of_forall {α β : Type} {f : α → Except PredError β} {l : List α}
    (h : ∀ a ∈ l, ∃ b, f a = .ok b) : ∃ out, mapE f l = .ok out := by
  induction l with
  | nil => exact ⟨[], rfl⟩
  | cons a t ih =>
    obtain ⟨b, hb⟩ := h a (List.mem_cons_self _ _)
    obtain ⟨out, hout⟩ := ih (fun x hx => h x (List.mem_cons_of_mem _ hx))
    exact ⟨b :: out, by simp [mapE, hb, hout]⟩

theorem mapE_error_mem {α β : Type} {f : α → Except PredError β} {l : List α}
    {e : PredError} (h : mapE f l = .error e) : ∃ a ∈ l, f a = .error e := by
  induction l with
  | nil => exact Except.noConfusion h
  | cons a t ih =>
    simp only [mapE] at h
    cases hfa : f a with
    | error e' =>
      rw [hfa] at h
      simp only [Except.error.injEq] at h
      exact ⟨a, List.mem_cons_self _ _, h ▸ hfa⟩
    | ok b =>
      rw [hfa] at h
      cases hmt : mapE f t with
      | error e' =>
        rw [hmt] at h
        simp only [Except.error.injEq] at h
        obtain ⟨x, hx, hfx⟩ := ih (h ▸ hmt)
        exact ⟨x, List.mem_cons_of_mem _ hx, hfx⟩
      | ok bs => rw [hmt] at h; exact Except.noConfusion h

theorem mapE_error_all {α β : Type} {f : α → Except PredError β} {l : List α}
    {E : PredError} (hall : ∀ a ∈ l, (∃ b, f a = .ok b) ∨ f a = .error E)
    (hex : ∃ a ∈ l, f a = .error E) : mapE f l = .error E := by
  induction l with
  | nil => obtain ⟨a, ha, _⟩ := hex; simp at ha
  | cons x t ih =>
    rcases hall x (List.mem_cons_self _ _) with ⟨b, hb⟩ | hbad
    · obtain ⟨a, ha, hfa⟩ := hex
      have hat : a ∈ t := by
        rcases List.mem_cons.mp ha with rfl | hat
        · rw [hb] at hfa; exact Except.noConfusion hfa
        · exact hat
      have ht : mapE f t = .error E :=
        ih (fun y hy => hall y (List.mem_cons_of_mem _ hy)) ⟨a, hat, hfa⟩
      simp [mapE, hb, ht]
    · simp [mapE, hbad]

theorem except_bind_ok {α β : Type} (a : α) (f : α → Except PredError β) :
    (Except.ok a >>= f : Except PredError β) = f a := rfl

theorem except_bind_error {α β : Type} (e : PredError)
    (f : α → Except PredError β) :
    (Except.error e >>= f : Except PredError β) = .error e := rfl

theorem except_pure {α : Type} (a : α) :
    (pure a : Except PredError α) = .ok a := rfl

/-! ### unique_pairs, zip and filter lemmas -/

theorem mem_unique_pairs : ∀ (l : List Pair) (p : Pair),
    p ∈ unique_pairs l ↔ p ∈ l := by
  intro l
  induction l with
  | nil => intro p; simp [unique_pairs]
  | cons q t ih =>
    intro p
    show p ∈ (if q ∈ unique_pairs t then unique_pairs t else q :: unique_pairs t) ↔ p ∈ q :: t
    by_cases hq : q ∈ unique_pairs t
    · rw [if_pos hq, ih p, List.mem_cons]
      have hqt : q ∈ t := (ih q).mp hq
      constructor
      · exact Or.inr
      · rintro (rfl | hp)
        · exact hqt
        · exact hp
    · rw [if_neg hq]
      simp [List.mem_cons, ih p]

theorem nodup_unique_pairs : ∀ (l : List Pair), (unique_pairs l).Nodup := by
  intro l
  induction l with
  | nil => simp [unique_pairs]
  | cons q t ih =>
    show ((if q ∈ unique_pairs t then unique_pairs t else q :: unique_pairs t)).Nodup
    by_cases hq : q ∈ unique_pairs t
    · rw [if_pos hq]; exact ih
    · rw [if_neg hq]; exact List.nodup_cons.mpr ⟨hq, ih⟩

theorem zip_get? {α β : Type} {l1 : List α} {l2 : List β} {i : Nat} {a : α}
    {b : β} (h1 : l1.get? i = some a) (h2 : l2.get? i = some b) :
    (l1.zip l2).get? i = some (a, b) := by
  induction l1 generalizing l2 i with
  | nil => simp at h1
  | cons x t ih =>
    cases l2 with
    | nil => simp at h2
    | cons y s =>
      cases i with
      | zero =>
        simp only [List.get?] at h1 h2
        cases h1; cases h2
        rfl
      | succ n =>
        simp only [List.get?] at h1 h2
        simpa [List.zip_cons_cons] using ih h1 h2

/-! ### Decision-policy pipeline lemmas -/

theorem classify_and_decide_eq (P : Predictor) (ohs : List EncodedInput) :
    classify_and_decide P ohs =
      ohs.map (fun oh => decide (P.classification_threshold ≤ P.classification_model oh)) := by
  cases ohs with
  | nil => rfl
  | cons a t =>
    simp [classify_and_decide, predict_from_onehot, List.map_map, Function.comp]

theorem regress_eq (P : Predictor) (ohs : List EncodedInput) :
    regress P ohs =
      ohs.map (fun oh => max regression_lower_bound
        (P.regression_model oh + regression_shift)) := by
  cases ohs with
  | nil => rfl
  | cons a t =>
    simp [regress, predict_from_onehot, List.map_map, Function.comp]

theorem active_onehots_filter (clsF : EncodedInput → Bool) :
    ∀ (ohs : List EncodedInput),
      active_onehots ohs (ohs.map clsF) = ohs.filter clsF := by
  intro ohs
  induction ohs with
  | nil => rfl
  | cons a t ih =>
    show ((((a, clsF a) :: t.zip (t.map clsF)).filter (fun x => x.2)).map (fun x => x.1))
      = (a :: t).filter clsF
    cases hca : clsF a with
    | false => simp [List.filter_cons, hca, active_onehots] at ih ⊢; exact ih
    | true => simp [List.filter_cons, hca, active_onehots] at ih ⊢; exact ih

theorem combine_pipeline (θ : Rat) (clsF : EncodedInput → Bool)
    (regF : EncodedInput → Rat) :
    ∀ (ohs : List EncodedInput),
      combine_model_results θ (ohs.map clsF) ((ohs.filter clsF).map regF) =
        some (ohs.map (fun oh =>
          if clsF oh then (regF oh, decide (θ ≤ regF oh)) else (0, false))) := by
  intro ohs
  induction ohs with
  | nil => rfl
  | cons a t ih =>
    cases hca : clsF a with
    | false => simp [List.filter_cons, hca, combine_model_results, ih]
    | true => simp [List.filter_cons, hca, combine_model_results, ih]

theorem run_pipeline_eq (P : Predictor) (ohs : List EncodedInput) :
    combine_model_results P.regression_threshold (classify_and_decide P ohs)
      (regress P (active_onehots ohs (classify_and_decide P ohs))) =
      some (combined_of P ohs) := by
  rw [classify_and_decide_eq, active_onehots_filter, regress_eq, combine_pipeline]
  have hfn : (fun oh => if decide (P.classification_threshold ≤ P.classification_model oh)
      then (max regression_lower_bound (P.regression_model oh + regression_shift),
        decide (P.regression_threshold ≤
          max regression_lower_bound (P.regression_model oh + regression_shift)))
      else ((0 : Rat), false)) = combine_one P := by
    funext oh
    by_cases h : P.classification_threshold ≤ P.classification_model oh
    · simp [combine_one, h]
    · simp [combine_one, h]
  rw [hfn]
  rfl

/-! ### Cache-layer lemmas -/

theorem memAt_ensure (P : Predictor) (s : Int) :
    memAt (ensure_locus P s) s = memAt P s := by
  unfold ensure_locus memAt
  cases h : alookup s P.memoized_evaluations with
  | none => simp [h, alookup_aupdate_self]
  | some m => simp [h]

theorem alookup_ensure_ne (P : Predictor) {s s' : Int} (h : s' ≠ s) :
    alookup s' (ensure_locus P s).memoized_evaluations =
      alookup s' P.memoized_evaluations := by
  unfold ensure_locus
  cases halo : alookup s P.memoized_evaluations with
  | none => simp [halo, alookup_aupdate_ne _ _ h]
  | some m => simp [halo]

theorem ensure_locus_idem (P : Predictor) (s : Int) :
    ensure_locus (ensure_locus P s) s = ensure_locus P s := by
  unfold ensure_locus
  cases h : alookup s P.memoized_evaluations with
  | none => simp [h, alookup_aupdate_self]
  | some m => simp [h]

theorem ensure_locus_context (P : Predictor) (s : Int) :
    (ensure_locus P s).context_nt = P.context_nt := by
  unfold ensure_locus
  split <;> rfl

theorem combine_one_ensure (P : Predictor) (s : Int) :
    combine_one (ensure_locus P s) = combine_one P := by
  unfold ensure_locus
  split <;> rfl

theorem combined_of_ensure (P : Predictor) (s : Int) (ohs : List EncodedInput) :
    combined_of (ensure_locus P s) ohs = combined_of P ohs := by
  unfold combined_of
  rw [combine_one_ensure]

theorem memo_store_ensure (P : Predictor) (s : Int) (prs : List Pair)
    (ohs : List EncodedInput) :
    memo_store (ensure_locus P s) s prs ohs = memo_store P s prs ohs := by
  show (let P1 := ensure_locus (ensure_locus P s) s
    let mem2 := mem_write (prs.zip (combined_of (ensure_locus P s) ohs))
      (memAt (ensure_locus P s) s)
    { P1 with memoized_evaluations := aupdate s mem2 P1.memoized_evaluations }) = _
  rw [ensure_locus_idem, combined_of_ensure, memAt_ensure]
  rfl

theorem memAt_memo_store (P : Predictor) (s : Int) (prs : List Pair)
    (ohs : List EncodedInput) :
    memAt (memo_store P s prs ohs) s =
      mem_write (prs.zip (combined_of P ohs)) (memAt P s) := by
  unfold memo_store memAt
  simp [alookup_aupdate_self]

theorem alookup_memo_store_ne (P : Predictor) {s s' : Int} (prs : List Pair)
    (ohs : List EncodedInput) (h : s' ≠ s) :
    alookup s' (memo_store P s prs ohs).memoized_evaluations =
      alookup s' P.memoized_evaluations := by
  unfold memo_store
  rw [alookup_aupdate_ne _ _ h, alookup_ensure_ne P h]

theorem run_models_eq (P : Predictor) (s : Int) (prs : List Pair) :
    run_models_and_memoize P s prs =
      (model_input_from_nt P.context_nt prs).map (fun ohs => memo_store P s prs ohs) := by
  unfold run_models_and_memoize
  cases h : model_input_from_nt P.context_nt prs with
  | error e => simp [Except.map]
  | ok ohs =>
    simp only [Except.map, run_pipeline_eq, memo_store, memAt_ensure]

theorem pairs_to_evaluate_ensure (P : Predictor) (s : Int) (pairs : List Pair) :
    pairs_to_evaluate (ensure_locus P s) s pairs = pairs_to_evaluate P s pairs := by
  unfold pairs_to_evaluate
  rw [memAt_ensure]

theorem det_ok_elim {P P' : Predictor} {s : Int} {pairs : List Pair}
    {res : List Bool} (h : determine_highly_active P s pairs = .ok (P', res)) :
    ∃ ohs, model_input_from_nt P.context_nt (pairs_to_evaluate P s pairs) = .ok ohs ∧
      P' = memo_store P s (pairs_to_evaluate P s pairs) ohs ∧
      mapE (read_highly (memAt P' s)) pairs = .ok res := by
  simp only [determine_highly_active] at h
  rw [run_models_eq, pairs_to_evaluate_ensure, ensure_locus_context] at h
  cases hmi : model_input_from_nt P.context_nt (pairs_to_evaluate P s pairs) with
  | error e =>
    rw [hmi] at h
    exact Except.noConfusion h
  | ok ohs =>
    rw [hmi] at h
    simp only [Except.map, memo_store_ensure] at h
    cases hread : mapE (read_highly
        (memAt (memo_store P s (pairs_to_evaluate P s pairs) ohs) s)) pairs with
    | error e => rw [hread] at h; exact Except.noConfusion h
    | ok out =>
      rw [hread] at h
      simp only [Except.ok.injEq, Prod.mk.injEq] at h
      obtain ⟨hP, hres⟩ := h
      subst hP
      subst hres
      exact ⟨ohs, rfl, rfl, hread⟩

theorem compute_ok_elim {P P' : Predictor} {s : Int} {pairs : List Pair}
    {res : List Rat} (h : compute_activity P s pairs = .ok (P', res)) :
    ∃ ohs, model_input_from_nt P.context_nt (pairs_to_evaluate P s pairs) = .ok ohs ∧
      P' = memo_store P s (pairs_to_evaluate P s pairs) ohs ∧
      mapE (read_activity (memAt P' s)) pairs = .ok res := by
  simp only [compute_activity] at h
  rw [run_models_eq, pairs_to_evaluate_ensure, ensure_locus_context] at h
  cases hmi : model_input_from_nt P.context_nt (pairs_to_evaluate P s pairs) with
  | error e =>
    rw [hmi] at h
    exact Except.noConfusion h
  | ok ohs =>
    rw [hmi] at h
    simp only [Except.map, memo_store_ensure] at h
    cases hread : mapE (read_activity
        (memAt (memo_store P s (pairs_to_evaluate P s pairs) ohs) s)) pairs with
    | error e => rw [hread] at h; exact Except.noConfusion h
    | ok out =>
      rw [hread] at h
      simp only [Except.ok.injEq, Prod.mk.injEq] at h
      obtain ⟨hP, hres⟩ := h
      subst hP
      subst hres
      exact ⟨ohs, rfl, rfl, hread⟩

theorem pairs_to_evaluate_nodup (P : Predictor) (s : Int) (pairs : List Pair) :
    (pairs_to_evaluate P s pairs).Nodup :=
  (nodup_unique_pairs pairs).filter _

theorem mem_pairs_to_evaluate (P : Predictor) (s : Int) (pairs : List Pair)
    (q : Pair) : q ∈ pairs_to_evaluate P s pairs ↔
      q ∈ pairs ∧ alookup q (memAt P s) = none := by
  unfold pairs_to_evaluate
  rw [List.mem_filter, mem_unique_pairs]
  simp [Option.isNone_iff_eq_none]

theorem model_input_ok_length {c : Nat} {pairs : List Pair}
    {ohs : List EncodedInput} (h : model_input_from_nt c pairs = .ok ohs) :
    ohs.length = pairs.length := by
  cases pairs with
  | nil =>
    simp only [model_input_from_nt, Except.ok.injEq] at h
    subst h
    rfl
  | cons p0 t =>
    simp only [model_input_from_nt] at h
    exact mapE_ok_length h

theorem encode_pair_ok_length {c : Nat} {t g : Nt} {rows : EncodedInput}
    (h : encode_pair c t g = .ok rows) : rows.length = 2 * c + g.length := by
  by_cases hlen : t.length = 2 * c + g.length
  · simp only [encode_pair, if_pos hlen] at h
    cases hm1 : mapE (fun pos => encode_row_ctx t pos) (List.range c) with
    | error e => rw [hm1, except_bind_error] at h; exact Except.noConfusion h
    | ok l1 =>
    rw [hm1, except_bind_ok] at h
    cases hm2 : mapE (fun pos => encode_row_pair t g c pos) (List.range g.length) with
    | error e => rw [hm2, except_bind_error] at h; exact Except.noConfusion h
    | ok l2 =>
    rw [hm2, except_bind_ok] at h
    cases hm3 : mapE (fun pos => encode_row_ctx t (c + g.length + pos)) (List.range c) with
    | error e => rw [hm3, except_bind_error] at h; exact Except.noConfusion h
    | ok l3 =>
    rw [hm3, except_bind_ok, except_pure] at h
    injection h with h
    subst h
    have e1 := mapE_ok_length hm1
    have e2 := mapE_ok_length hm2
    have e3 := mapE_ok_length hm3
    rw [List.length_range] at e1 e2 e3
    simp only [List.length_append]
    omega
  · simp [encode_pair, hlen] at h

theorem store_encoding_full {l : Nat} {e : EncodedInput} {b : EncodedInput}
    (hlen : e.length = l) (h : store_encoding l e = .ok b) : b = e := by
  by_cases h1 : e.length = 1
  · rw [store_encoding, if_pos h1, except_pure] at h
    obtain ⟨a, ha⟩ := List.length_eq_one.mp h1
    injection h with h
    subst h
    subst ha
    rw [← hlen, h1]
    rfl
  · rw [store_encoding, if_neg h1] at h
    by_cases h2 : e.length = l ∧ e.length ≠ 0
    · rw [if_pos h2, except_pure] at h
      injection h with h
      exact h.symm
    · rw [if_neg h2] at h
      exact Except.noConfusion h

theorem store_encoding_error_eq {l : Nat} {e : EncodedInput} {err : PredError}
    (h : store_encoding l e = .error err) : err = .shapeError := by
  by_cases h1 : e.length = 1
  · rw [store_encoding, if_pos h1, except_pure] at h
    exact Except.noConfusion h
  · rw [store_encoding, if_neg h1] at h
    by_cases h2 : e.length = l ∧ e.length ≠ 0
    · rw [if_pos h2, except_pure] at h
      exact Except.noConfusion h
    · rw [if_neg h2] at h
      injection h with h
      exact h.symm

theorem store_encoding_err {l : Nat} {e : EncodedInput}
    (h1 : e.length ≠ 1) (h2 : ¬(e.length = l ∧ e.length ≠ 0)) :
    store_encoding l e = .error .shapeError := by
  rw [store_encoding, if_neg h1, if_neg h2]

theorem model_input_ok_get_uniform {c : Nat} {pairs : List Pair}
    {ohs : List EncodedInput} {i : Nat} {pr : Pair}
    (huni : ∀ q ∈ pairs, ∀ q' ∈ pairs, q.2.length = q'.2.length)
    (h : model_input_from_nt c pairs = .ok ohs)
    (hi : pairs.get? i = some pr) :
    ∃ rows, encode_pair c pr.1 pr.2 = .ok rows ∧ ohs.get? i = some rows := by
  cases pairs with
  | nil => simp at hi
  | cons p0 t =>
    simp only [model_input_from_nt] at h
    obtain ⟨b, hb, hout⟩ := mapE_ok_get h hi
    cases henc : encode_pair c pr.1 pr.2 with
    | error e =>
      rw [show (do
        let e ← encode_pair c pr.1 pr.2
        store_encoding (2 * c + p0.2.length) e : Except PredError EncodedInput) =
          .error e by rw [henc]; rfl] at hb
      exact Except.noConfusion hb
    | ok rows =>
      refine ⟨rows, rfl, ?_⟩
      rw [show (do
        let e ← encode_pair c pr.1 pr.2
        store_encoding (2 * c + p0.2.length) e : Except PredError EncodedInput) =
          store_encoding (2 * c + p0.2.length) rows by rw [henc]; rfl] at hb
      have hglen : pr.2.length = p0.2.length :=
        huni pr (List.get?_mem hi) p0 (List.mem_cons_self _ _)
      have hrl : rows.length = 2 * c + p0.2.length := by
        rw [encode_pair_ok_length henc, hglen]
      rw [← store_encoding_full hrl hb]
      exact hout

theorem lookup_after_store (P : Predictor) (s : Int) (pairs : List Pair)
    {ohs : List EncodedInput}
    (huni : ∀ q ∈ pairs, ∀ q' ∈ pairs, q.2.length = q'.2.length)
    (hmi : model_input_from_nt P.context_nt (pairs_to_evaluate P s pairs) = .ok ohs)
    {pr : Pair} (hpr : pr ∈ pairs) :
    ∃ r, alookup pr (memAt (memo_store P s (pairs_to_evaluate P s pairs) ohs) s) = some r ∧
      (alookup pr (memAt P s) = some r ∨ eval_pair P pr = .ok r) := by
  have hkeys : ((pairs_to_evaluate P s pairs).zip (combined_of P ohs)).map Prod.fst =
      pairs_to_evaluate P s pairs := by
    apply List.map_fst_zip
    rw [combined_of, List.length_map, model_input_ok_length hmi]
  rw [memAt_memo_store]
  cases hc : alookup pr (memAt P s) with
  | some r0 =>
    have hnot : pr ∉ pairs_to_evaluate P s pairs := by
      rw [mem_pairs_to_evaluate]
      rintro ⟨-, hnone⟩
      rw [hc] at hnone
      exact Option.noConfusion hnone
    refine ⟨r0, ?_, Or.inl rfl⟩
    rw [alookup_mem_write_not_mem _ _ (by rw [hkeys]; exact hnot)]
    exact hc
  | none =>
    have hmem : pr ∈ pairs_to_evaluate P s pairs :=
      (mem_pairs_to_evaluate P s pairs pr).mpr ⟨hpr, hc⟩
    obtain ⟨i, hi⟩ := List.mem_iff_get?.mp hmem
    have htu : ∀ q ∈ pairs_to_evaluate P s pairs, ∀ q' ∈ pairs_to_evaluate P s pairs,
        q.2.length = q'.2.length := fun q hq q' hq' =>
      huni q ((mem_pairs_to_evaluate P s pairs q).mp hq).1
        q' ((mem_pairs_to_evaluate P s pairs q').mp hq').1
    obtain ⟨rows, hrows, hohs⟩ := model_input_ok_get_uniform htu hmi hi
    have hcomb : (combined_of P ohs).get? i = some (combine_one P rows) := by
      rw [combined_of, List.get?_map, hohs]
      rfl
    have hzip := zip_get? hi hcomb
    refine ⟨combine_one P rows, ?_, Or.inr ?_⟩
    · exact alookup_mem_write_of_mem _ _
        (by rw [hkeys]; exact pairs_to_evaluate_nodup P s pairs)
        (List.get?_mem hzip)
    · rw [eval_pair, hrows]
      rfl

theorem det_ok_get {P P' : Predictor} {s : Int} {pairs : List Pair}
    {res : List Bool} (h : determine_highly_active P s pairs = .ok (P', res))
    {i : Nat} {pr : Pair} (hi : pairs.get? i = some pr) :
    ∃ r, alookup pr (memAt P' s) = some r ∧ res.get? i = some r.2 := by
  obtain ⟨ohs, hmi, hP, hread⟩ := det_ok_elim h
  obtain ⟨b, hb, hout⟩ := mapE_ok_get hread hi
  cases hc : alookup pr (memAt P' s) with
  | none => rw [read_highly, hc] at hb; exact Except.noConfusion hb
  | some r =>
    rw [read_highly, hc] at hb
    cases hb
    exact ⟨r, rfl, hout⟩

theorem compute_ok_get {P P' : Predictor} {s : Int} {pairs : List Pair}
    {res : List Rat} (h : compute_activity P s pairs = .ok (P', res))
    {i : Nat} {pr : Pair} (hi : pairs.get? i = some pr) :
    ∃ r, alookup pr (memAt P' s) = some r ∧ res.get? i = some r.1 := by
  obtain ⟨ohs, hmi, hP, hread⟩ := compute_ok_elim h
  obtain ⟨b, hb, hout⟩ := mapE_ok_get hread hi
  cases hc : alookup pr (memAt P' s) with
  | none => rw [read_activity, hc] at hb; exact Except.noConfusion hb
  | some r =>
    rw [read_activity, hc] at hb
    cases hb
    exact ⟨r, rfl, hout⟩

theorem combine_isSome_iff (θ : Rat) :
    ∀ (cls : List Bool) (reg : List Rat),
      (combine_model_results θ cls reg).isSome ↔ reg.length = cls.count true := by
  intro cls
  induction cls with
  | nil =>
    intro reg
    cases reg with
    | nil => simp [combine_model_results]
    | cons r rs => simp [combine_model_results]
  | cons b cs ih =>
    intro reg
    cases b with
    | false => simp [combine_model_results, ih reg, List.count_cons]
    | true =>
      cases reg with
      | nil => simp [combine_model_results, List.count_cons]
      | cons r rs => simp [combine_model_results, ih rs, List.count_cons]

/-- C5: whenever the decision policy merges classification and regression
outputs, the merge succeeds exactly when the number of regression outputs
equals the number of pairs classified active (any mismatch is fatal,
never silently truncated or padded), and under the actual partition that
`_run_models_and_memoize` performs before regression the error branch is
unreachable: the merge always succeeds. -/
theorem C5_regression_count_integrity :
    (∀ (θ : Rat) (cls : List Bool) (reg : List Rat),
      (combine_model_results θ cls reg).isSome ↔ reg.length = cls.count true) ∧
    (∀ (P : Predictor) (ohs : List EncodedInput),
      combine_model_results P.regression_threshold (classify_and_decide P ohs)
        (regress P (active_onehots ohs (classify_and_decide P ohs))) =
        some (combined_of P ohs)) :=
  ⟨combine_isSome_iff, run_pipeline_eq⟩

theorem C5_regression_count_integrity_witness :
    (combine_model_results 1 [true, false] [(2 : Rat)]).isSome ↔
      [(2 : Rat)].length = [true, false].count true :=
  C5_regression_count_integrity.1 1 [true, false] [2]

/-- C1: a pair whose classification score is below the classification
threshold gets the result `(0, false)` from the merge, its encoding is
not in the batch handed to the regression model, and that batch holds
only encodings classified active. -/
theorem C1_inactive_result_and_regression_batch (P : Predictor)
    (ohs : List EncodedInput) (results : List (Rat × Bool)) (i : Nat)
    (oh : EncodedInput)
    (hcomb : combine_model_results P.regression_threshold (classify_and_decide P ohs)
      (regress P (active_onehots ohs (classify_and_decide P ohs))) = some results)
    (hoh : ohs.get? i = some oh)
    (hlt : P.classification_model oh < P.classification_threshold) :
    results.get? i = some (0, false) ∧
    oh ∉ active_onehots ohs (classify_and_decide P ohs) ∧
    ∀ oh' ∈ active_onehots ohs (classify_and_decide P ohs),
      P.classification_threshold ≤ P.classification_model oh' := by
  rw [run_pipeline_eq] at hcomb
  injection hcomb with hres
  subst hres
  have hactive : ∀ oh' ∈ active_onehots ohs (classify_and_decide P ohs),
      P.classification_threshold ≤ P.classification_model oh' := by
    intro oh' hmem
    rw [classify_and_decide_eq, active_onehots_filter] at hmem
    have := (List.mem_filter.mp hmem).2
    exact of_decide_eq_true this
  refine ⟨?_, ?_, hactive⟩
  · rw [combined_of, List.get?_map, hoh]
    simp [combine_one, not_le.mpr hlt]
  · intro hmem
    exact absurd (hactive oh hmem) (not_le.mpr hlt)

unseal Rat.add Rat.mul Rat.sub Rat.inv Rat.ofScientific in
theorem C1_inactive_result_and_regression_batch_witness :
    ([((0 : Rat), false)].get? 0 = some (0, false) ∧
    test_oh ∉ active_onehots [test_oh] (classify_and_decide inactive_predictor [test_oh]) ∧
    ∀ oh' ∈ active_onehots [test_oh] (classify_and_decide inactive_predictor [test_oh]),
      inactive_predictor.classification_threshold ≤
        inactive_predictor.classification_model oh') :=
  C1_inactive_result_and_regression_batch inactive_predictor [test_oh]
    [(0, false)] 0 test_oh (by decide) rfl (by decide)

/-- C2 (amended): a pair whose classification score is at or above the
threshold gets activity `max(0, raw + 4.0)` and `highly_active` exactly
when the shifted value reaches the regression threshold; a raw output of
-5.0 yields activity 0.0; below the threshold the result is the shifted
value (which may be 0, not necessarily nonzero) paired with `false`. -/
theorem C2_active_shifted_activity (P : Predictor)
    (ohs : List EncodedInput) (results : List (Rat × Bool)) (i : Nat)
    (oh : EncodedInput)
    (hcomb : combine_model_results P.regression_threshold (classify_and_decide P ohs)
      (regress P (active_onehots ohs (classify_and_decide P ohs))) = some results)
    (hoh : ohs.get? i = some oh)
    (hge : P.classification_threshold ≤ P.classification_model oh) :
    results.get? i = some (max 0 (P.regression_model oh + 4),
      decide (P.regression_threshold ≤ max 0 (P.regression_model oh + 4))) ∧
    (P.regression_model oh = -5 →
      results.get? i = some (0, decide (P.regression_threshold ≤ 0))) ∧
    (max 0 (P.regression_model oh + 4) < P.regression_threshold →
      results.get? i = some (max 0 (P.regression_model oh + 4), false)) := by
  rw [run_pipeline_eq] at hcomb
  injection hcomb with hres
  subst hres
  have hget : (combined_of P ohs).get? i =
      some (max 0 (P.regression_model oh + 4),
        decide (P.regression_threshold ≤ max 0 (P.regression_model oh + 4))) := by
    rw [combined_of, List.get?_map, hoh]
    simp [combine_one, hge, regression_lower_bound, regression_shift]
  refine ⟨hget, ?_, ?_⟩
  · intro hraw
    rw [hget, hraw]
    norm_num
  · intro hlow
    rw [hget, decide_eq_false (not_le.mpr hlow)]

unseal Rat.add Rat.mul Rat.sub Rat.inv Rat.ofScientific in
theorem C2_active_shifted_activity_witness :
    [((1 : Rat), true)].get? 0 = some (max 0 (test_predictor.regression_model test_oh + 4),
      decide (test_predictor.regression_threshold ≤
        max 0 (test_predictor.regression_model test_oh + 4))) :=
  (C2_active_shifted_activity test_predictor [test_oh] [(1, true)] 0 test_oh
    (by decide) rfl (by decide)).1

unseal Rat.add Rat.mul Rat.sub Rat.inv Rat.ofScientific in
/-- C2 counterexample to the spec's "nonzero" description: with a raw
regression output of -5.0 on a pair classified active and a regression
threshold of 0.8, the shifted value is below the threshold and the
returned activity is exactly 0 — not a nonzero value. -/
theorem C2_nonzero_description_counterexample :
    classify_and_decide floor_predictor [test_oh] = [true] ∧
    max 0 (floor_predictor.regression_model test_oh + 4) <
      floor_predictor.regression_threshold ∧
    combine_model_results floor_predictor.regression_threshold
      (classify_and_decide floor_predictor [test_oh])
      (regress floor_predictor (active_onehots [test_oh]
        (classify_and_decide floor_predictor [test_oh]))) = some [(0, false)] := by
  refine ⟨by decide, by decide, ?_⟩
  decide

/-- C8: construction-time threshold validation: a caller-supplied
classification threshold outside [0,1] raises ValueError; a
caller-supplied regression threshold below 0 raises ValueError; a
default classification threshold outside [0,1] fails the assert; a
default regression threshold is stored shifted by +4.0 and the stored
value must strictly exceed the lower bound 0, else the assert fails. -/
theorem C8_threshold_validation :
    (∀ (c : Rat) (ropt : Option Rat) (cd rd : Rat), c < 0 ∨ 1 < c →
      init_thresholds (some c) ropt cd rd = .error .valueError) ∧
    (∀ (c r cd rd : Rat), 0 ≤ c → c ≤ 1 → r < 0 →
      init_thresholds (some c) (some r) cd rd = .error .valueError) ∧
    (∀ (r cd rd : Rat), 0 ≤ cd → cd ≤ 1 → r < 0 →
      init_thresholds none (some r) cd rd = .error .valueError) ∧
    (∀ (ropt : Option Rat) (cd rd : Rat), ¬(0 ≤ cd ∧ cd ≤ 1) →
      init_thresholds none ropt cd rd = .error .assertionError) ∧
    (∀ (cd rd : Rat), 0 ≤ cd → cd ≤ 1 →
      ¬(regression_lower_bound < rd + regression_shift) →
      init_thresholds none none cd rd = .error .assertionError) ∧
    (∀ (cd rd : Rat), 0 ≤ cd → cd ≤ 1 →
      regression_lower_bound < rd + regression_shift →
      init_thresholds none none cd rd = .ok (cd, rd + regression_shift)) := by
  refine ⟨?_, ?_, ?_, ?_, ?_, ?_⟩
  · intro c ropt cd rd h
    simp [init_thresholds, h]
  · intro c r cd rd h0 h1 hr
    have hc : ¬(c < 0 ∨ 1 < c) := by
      push_neg
      exact ⟨h0, h1⟩
    simp [init_thresholds, hc, init_thresholds.init_thresholds_reg, hr]
  · intro r cd rd h0 h1 hr
    simp [init_thresholds, h0, h1, init_thresholds.init_thresholds_reg, hr]
  · intro ropt cd rd h
    simp [init_thresholds, h]
  · intro cd rd h0 h1 hs
    simp [init_thresholds, h0, h1, init_thresholds.init_thresholds_reg, hs]
  · intro cd rd h0 h1 hs
    simp [init_thresholds, h0, h1, init_thresholds.init_thresholds_reg, hs]

unseal Rat.add Rat.mul Rat.sub Rat.inv Rat.ofScientific in
theorem C8_threshold_validation_witness :
    init_thresholds (some 2) none 0 0 = .error .valueError ∧
    init_thresholds none (some (-1)) (1/2) 0 = .error .valueError ∧
    init_thresholds none none 2 0 = .error .assertionError ∧
    init_thresholds none none (1/2) (-5) = .error .assertionError ∧
    init_thresholds none none (1/2) (-3) = .ok (1/2, 1) :=
  ⟨C8_threshold_validation.1 2 none 0 0 (Or.inr (by decide)),
   C8_threshold_validation.2.2.1 (-1) (1/2) 0 (by decide) (by decide) (by decide),
   C8_threshold_validation.2.2.2.1 none 2 0 (by decide),
   C8_threshold_validation.2.2.2.2.1 (1/2) (-5) (by decide) (by decide) (by decide),
   by
    have h := C8_threshold_validation.2.2.2.2.2 (1/2) (-3) (by decide) (by decide)
      (by decide)
    rw [h]
    decide⟩

/-- C7: cleanup(locus) removes every cached entry for that locus (under
the dict invariant that locus keys are unique), leaves every other
locus's entries untouched, and is the identity (a no-op, not an error)
when the locus has no entries; evaluating pairs at one locus never
touches entries of a different locus. -/
theorem C7_cleanup_frame :
    (∀ (P : Predictor) (s : Int), (P.memoized_evaluations.map Prod.fst).Nodup →
      alookup s (cleanup_memoized P s).memoized_evaluations = none) ∧
    (∀ (P : Predictor) (s s' : Int), s' ≠ s →
      alookup s' (cleanup_memoized P s).memoized_evaluations =
        alookup s' P.memoized_evaluations) ∧
    (∀ (P : Predictor) (s : Int), alookup s P.memoized_evaluations = none →
      cleanup_memoized P s = P) ∧
    (∀ (P P' : Predictor) (s s' : Int) (pairs : List Pair) (res : List Bool),
      determine_highly_active P s pairs = .ok (P', res) → s' ≠ s →
      alookup s' P'.memoized_evaluations = alookup s' P.memoized_evaluations) ∧
    (∀ (P P' : Predictor) (s s' : Int) (pairs : List Pair) (act : List Rat),
      compute_activity P s pairs = .ok (P', act) → s' ≠ s →
      alookup s' P'.memoized_evaluations = alookup s' P.memoized_evaluations) := by
  refine ⟨?_, ?_, ?_, ?_, ?_⟩
  · intro P s hnd
    cases h : alookup s P.memoized_evaluations with
    | none => simp [cleanup_memoized, h]
    | some m =>
      simp only [cleanup_memoized, h, Option.isSome_some, if_pos]
      exact alookup_aerase_self s _ hnd
  · intro P s s' hne
    cases h : alookup s P.memoized_evaluations with
    | none => simp [cleanup_memoized, h]
    | some m =>
      simp only [cleanup_memoized, h, Option.isSome_some, if_pos]
      exact alookup_aerase_ne _ hne
  · intro P s h
    simp [cleanup_memoized, h]
  · intro P P' s s' pairs res h hne
    obtain ⟨ohs, hmi, hP, -⟩ := det_ok_elim h
    subst hP
    exact alookup_memo_store_ne P _ ohs hne
  · intro P P' s s' pairs act h hne
    obtain ⟨ohs, hmi, hP, -⟩ := compute_ok_elim h
    subst hP
    exact alookup_memo_store_ne P _ ohs hne

theorem C7_cleanup_frame_witness :
    alookup (0 : Int) (cleanup_memoized test_predictor 0).memoized_evaluations = none ∧
    cleanup_memoized test_predictor 0 = test_predictor :=
  ⟨C7_cleanup_frame.1 test_predictor 0 (by simp [test_predictor]),
   C7_cleanup_frame.2.2.1 test_predictor 0 rfl⟩

theorem zip_store_keys (P : Predictor) (s : Int) (pairs : List Pair)
    {ohs : List EncodedInput}
    (hmi : model_input_from_nt P.context_nt (pairs_to_evaluate P s pairs) = .ok ohs) :
    ((pairs_to_evaluate P s pairs).zip (combined_of P ohs)).map Prod.fst =
      pairs_to_evaluate P s pairs := by
  apply List.map_fst_zip
  rw [combined_of, List.length_map, model_input_ok_length hmi]

theorem det_lookup_preserved {P P' : Predictor} {s : Int} {pairs2 : List Pair}
    {res2 : List Bool} (h2 : determine_highly_active P s pairs2 = .ok (P', res2))
    {pr : Pair} {r : Rat × Bool} (hr : alookup pr (memAt P s) = some r) :
    alookup pr (memAt P' s) = some r := by
  obtain ⟨ohs, hmi, hP, -⟩ := det_ok_elim h2
  subst hP
  rw [memAt_memo_store, alookup_mem_write_not_mem _ _ ?_]
  · exact hr
  · rw [zip_store_keys P s pairs2 hmi, mem_pairs_to_evaluate]
    rintro ⟨-, hnone⟩
    rw [hr] at hnone
    exact Option.noConfusion hnone

theorem compute_lookup_preserved {P P' : Predictor} {s : Int} {pairs2 : List Pair}
    {res2 : List Rat} (h2 : compute_activity P s pairs2 = .ok (P', res2))
    {pr : Pair} {r : Rat × Bool} (hr : alookup pr (memAt P s) = some r) :
    alookup pr (memAt P' s) = some r := by
  obtain ⟨ohs, hmi, hP, -⟩ := compute_ok_elim h2
  subst hP
  rw [memAt_memo_store, alookup_mem_write_not_mem _ _ ?_]
  · exact hr
  · rw [zip_store_keys P s pairs2 hmi, mem_pairs_to_evaluate]
    rintro ⟨-, hnone⟩
    rw [hr] at hnone
    exact Option.noConfusion hnone

/-- C4: both cache-backed query operations evaluate the models only on
the deduplicated uncached subset `pairs_to_evaluate` of `set(pairs)`
(the set that `_run_models_and_memoize` is invoked on); after a
successful call every requested pair is cached and every occurrence
(duplicates included) reads back the single cached result; a later call
at the same locus does not re-evaluate such a pair and returns the
identical result. -/
theorem C4_cache_dedup_and_idempotence :
    (∀ (P : Predictor) (s : Int) (pairs : List Pair),
      (pairs_to_evaluate P s pairs).Nodup ∧
      (∀ q ∈ pairs_to_evaluate P s pairs, alookup q (memAt P s) = none) ∧
      (∀ q, q ∈ pairs_to_evaluate P s pairs ↔
        q ∈ pairs ∧ alookup q (memAt P s) = none)) ∧
    (∀ (P P' : Predictor) (s : Int) (pairs : List Pair) (res : List Bool) (pr : Pair),
      determine_highly_active P s pairs = .ok (P', res) → pr ∈ pairs →
      ∃ r, alookup pr (memAt P' s) = some r ∧
        (∀ i, pairs.get? i = some pr → res.get? i = some r.2) ∧
        (∀ pairs2, pr ∉ pairs_to_evaluate P' s pairs2) ∧
        (∀ pairs2 P'' res2, determine_highly_active P' s pairs2 = .ok (P'', res2) →
          ∀ i, pairs2.get? i = some pr → res2.get? i = some r.2)) ∧
    (∀ (P P' : Predictor) (s : Int) (pairs : List Pair) (act : List Rat) (pr : Pair),
      compute_activity P s pairs = .ok (P', act) → pr ∈ pairs →
      ∃ r, alookup pr (memAt P' s) = some r ∧
        (∀ i, pairs.get? i = some pr → act.get? i = some r.1) ∧
        (∀ pairs2, pr ∉ pairs_to_evaluate P' s pairs2) ∧
        (∀ pairs2 P'' act2, compute_activity P' s pairs2 = .ok (P'', act2) →
          ∀ i, pairs2.get? i = some pr → act2.get? i = some r.1)) := by
  refine ⟨?_, ?_, ?_⟩
  · intro P s pairs
    refine ⟨pairs_to_evaluate_nodup P s pairs, ?_, ?_⟩
    · intro q hq
      exact ((mem_pairs_to_evaluate P s pairs q).mp hq).2
    · intro q
      exact mem_pairs_to_evaluate P s pairs q
  · intro P P' s pairs res pr h hpr
    obtain ⟨i0, hi0⟩ := List.mem_iff_get?.mp hpr
    obtain ⟨r, hr, -⟩ := det_ok_get h hi0
    refine ⟨r, hr, ?_, ?_, ?_⟩
    · intro i hi
      obtain ⟨r', hr', hres'⟩ := det_ok_get h hi
      rw [hr] at hr'
      cases hr'
      exact hres'
    · intro pairs2 hmem
      have := ((mem_pairs_to_evaluate P' s pairs2 pr).mp hmem).2
      rw [hr] at this
      exact Option.noConfusion this
    · intro pairs2 P'' res2 h2 i hi
      obtain ⟨r2, hr2, hres2⟩ := det_ok_get h2 hi
      rw [det_lookup_preserved h2 hr] at hr2
      cases hr2
      exact hres2
  · intro P P' s pairs act pr h hpr
    obtain ⟨i0, hi0⟩ := List.mem_iff_get?.mp hpr
    obtain ⟨r, hr, -⟩ := compute_ok_get h hi0
    refine ⟨r, hr, ?_, ?_, ?_⟩
    · intro i hi
      obtain ⟨r', hr', hres'⟩ := compute_ok_get h hi
      rw [hr] at hr'
      cases hr'
      exact hres'
    · intro pairs2 hmem
      have := ((mem_pairs_to_evaluate P' s pairs2 pr).mp hmem).2
      rw [hr] at this
      exact Option.noConfusion this
    · intro pairs2 P'' act2 h2 i hi
      obtain ⟨r2, hr2, hres2⟩ := compute_ok_get h2 hi
      rw [compute_lookup_preserved h2 hr] at hr2
      cases hr2
      exact hres2

unseal Rat.add Rat.mul Rat.sub Rat.inv Rat.ofScientific in
theorem C4_cache_dedup_and_idempotence_witness :
    ∃ r, alookup test_pair (memAt { test_predictor with memoized_evaluations :=
        [(0, [(test_pair, ((1 : Rat), true))])] } 0) = some r ∧
      [true, true].get? 0 = some r.2 := by
  obtain ⟨r, hr, hall, -, -⟩ := C4_cache_dedup_and_idempotence.2.1 test_predictor
    { test_predictor with memoized_evaluations := [(0, [(test_pair, ((1 : Rat), true))])] }
    0 [test_pair, test_pair] [true, true] test_pair rfl (List.mem_cons_self _ _)
  exact ⟨r, hr, hall 0 rfl⟩

theorem det_ok_eval {P P' : Predictor} {s : Int} {pairs : List Pair}
    {res : List Bool} (hcons : consistent P)
    (huni : ∀ q ∈ pairs, ∀ q' ∈ pairs, q.2.length = q'.2.length)
    (h : determine_highly_active P s pairs = .ok (P', res)) {i : Nat} {pr : Pair}
    (hi : pairs.get? i = some pr) :
    ∃ v, eval_pair P pr = .ok v ∧ res.get? i = some v.2 := by
  obtain ⟨ohs, hmi, hP, hread⟩ := det_ok_elim h
  obtain ⟨r, hr, hres⟩ := det_ok_get h hi
  subst hP
  obtain ⟨r', hr', hcase⟩ := lookup_after_store P s pairs huni hmi (List.get?_mem hi)
  rw [hr] at hr'
  cases hr'
  rcases hcase with hcached | heval
  · exact ⟨r, hcons s pr r hcached, hres⟩
  · exact ⟨r, heval, hres⟩

theorem compute_ok_eval {P P' : Predictor} {s : Int} {pairs : List Pair}
    {res : List Rat} (hcons : consistent P)
    (huni : ∀ q ∈ pairs, ∀ q' ∈ pairs, q.2.length = q'.2.length)
    (h : compute_activity P s pairs = .ok (P', res)) {i : Nat} {pr : Pair}
    (hi : pairs.get? i = some pr) :
    ∃ v, eval_pair P pr = .ok v ∧ res.get? i = some v.1 := by
  obtain ⟨ohs, hmi, hP, hread⟩ := compute_ok_elim h
  obtain ⟨r, hr, hres⟩ := compute_ok_get h hi
  subst hP
  obtain ⟨r', hr', hcase⟩ := lookup_after_store P s pairs huni hmi (List.get?_mem hi)
  rw [hr] at hr'
  cases hr'
  rcases hcase with hcached | heval
  · exact ⟨r, hcons s pr r hcached, hres⟩
  · exact ⟨r, heval, hres⟩

/-- C6 (amended): on a consistent cache state (every cached entry equal
to the fresh decision-policy result for its pair — an invariant of every
state the predictor reaches, since entries are only written from model
outputs), and for a request whose guides all have one common length (the
regime in which numpy never broadcasts a mismatched single-row encoding
into the batch — see `C6_locus_counterexample` for why mixed guide
lengths break locus independence), the per-pair results of
`determine_highly_active` and `compute_activity` are independent of the
locus key: two successful runs from the same state differing only in the
locus argument return identical result lists. -/
theorem C6_locus_noninterference (P : Predictor) (hcons : consistent P)
    (s1 s2 : Int) (pairs : List Pair)
    (huni : ∀ q ∈ pairs, ∀ q' ∈ pairs, q.2.length = q'.2.length) :
    (∀ (P1 P2 : Predictor) (res1 res2 : List Bool),
      determine_highly_active P s1 pairs = .ok (P1, res1) →
      determine_highly_active P s2 pairs = .ok (P2, res2) → res1 = res2) ∧
    (∀ (P1 P2 : Predictor) (act1 act2 : List Rat),
      compute_activity P s1 pairs = .ok (P1, act1) →
      compute_activity P s2 pairs = .ok (P2, act2) → act1 = act2) := by
  constructor
  · intro P1 P2 res1 res2 h1 h2
    have hl1 : res1.length = pairs.length := by
      obtain ⟨-, -, -, hread⟩ := det_ok_elim h1
      exact mapE_ok_length hread
    have hl2 : res2.length = pairs.length := by
      obtain ⟨-, -, -, hread⟩ := det_ok_elim h2
      exact mapE_ok_length hread
    apply List.ext
    intro n
    cases hn : pairs.get? n with
    | some pr =>
      obtain ⟨v, hv, h1n⟩ := det_ok_eval hcons huni h1 hn
      obtain ⟨v', hv', h2n⟩ := det_ok_eval hcons huni h2 hn
      rw [hv] at hv'
      cases hv'
      rw [h1n, h2n]
    | none =>
      have hlen : pairs.length ≤ n := List.get?_eq_none.mp hn
      rw [List.get?_eq_none.mpr (by rw [hl1]; exact hlen),
        List.get?_eq_none.mpr (by rw [hl2]; exact hlen)]
  · intro P1 P2 act1 act2 h1 h2
    have hl1 : act1.length = pairs.length := by
      obtain ⟨-, -, -, hread⟩ := compute_ok_elim h1
      exact mapE_ok_length hread
    have hl2 : act2.length = pairs.length := by
      obtain ⟨-, -, -, hread⟩ := compute_ok_elim h2
      exact mapE_ok_length hread
    apply List.ext
    intro n
    cases hn : pairs.get? n with
    | some pr =>
      obtain ⟨v, hv, h1n⟩ := compute_ok_eval hcons huni h1 hn
      obtain ⟨v', hv', h2n⟩ := compute_ok_eval hcons huni h2 hn
      rw [hv] at hv'
      cases hv'
      rw [h1n, h2n]
    | none =>
      have hlen : pairs.length ≤ n := List.get?_eq_none.mp hn
      rw [List.get?_eq_none.mpr (by rw [hl1]; exact hlen),
        List.get?_eq_none.mpr (by rw [hl2]; exact hlen)]

unseal Rat.add Rat.mul Rat.sub Rat.inv Rat.ofScientific in
theorem C6_locus_noninterference_witness :
    ([(1 : Rat)] : List Rat) = [(1 : Rat)] :=
  (C6_locus_noninterference test_predictor
    (fun s pr r hr => by simp [test_predictor, memAt, alookup] at hr)
    0 1 [test_pair] (by decide)).2
    { test_predictor with memoized_evaluations := [(0, [(test_pair, (1, true))])] }
    { test_predictor with memoized_evaluations := [(1, [(test_pair, (1, true))])] }
    [1] [1] rfl rfl

/-! ### Encoder lemmas -/


unseal Rat.add Rat.mul Rat.sub Rat.inv Rat.ofScientific in
theorem onehot_table_spec :
    ∀ p ∈ FASTA_CODES_table,
      onehot p.1 = .ok (onehot_weights p.2) ∧ (onehot_weights p.2).sum = 1 := by
  decide

theorem onehot_spec (ch : Char) (bases : List Char)
    (h : FASTA_CODES ch = some bases) :
    onehot ch = .ok (onehot_weights bases) ∧ (onehot_weights bases).sum = 1 := by
  unfold FASTA_CODES at h
  exact onehot_table_spec (ch, bases) (alookup_mem h)

theorem onehot_ok_of_isSome {ch : Char} (h : (FASTA_CODES ch).isSome) :
    ∃ v, onehot ch = .ok v := by
  cases hc : FASTA_CODES ch with
  | none => rw [hc] at h; simp at h
  | some bases => exact ⟨onehot_weights bases, (onehot_spec ch bases hc).1⟩

theorem onehot_error_elim {ch : Char} {e : PredError}
    (h : onehot ch = .error e) : FASTA_CODES ch = none ∧ e = .keyError ch := by
  cases hc : FASTA_CODES ch with
  | none =>
    unfold onehot at h
    rw [hc] at h
    injection h with he
    exact ⟨rfl, he.symm⟩
  | some bases =>
    rw [(onehot_spec ch bases hc).1] at h
    exact Except.noConfusion h

theorem get?_getD {l : Nt} {n : Nat} (h : n < l.length) :
    l.get? n = some (l.getD n ' ') := by
  cases hg : l.get? n with
  | none => exact absurd (List.get?_eq_none.mp hg) (not_le.mpr h)
  | some c =>
    have hc : l.getD n ' ' = c := by
      rw [List.getD_eq_get?, hg]
      rfl
    rw [hc]

theorem encode_row_ctx_ok {t : Nt} {pos : Nat} {v : List Rat}
    (h : onehot (t.getD pos ' ') = .ok v) :
    encode_row_ctx t pos = .ok (v ++ [0, 0, 0, 0]) := by
  rw [encode_row_ctx, h, except_bind_ok, except_pure]

theorem encode_row_pair_ok {t g : Nt} {c pos : Nat} {vt vg : List Rat}
    (ht : onehot (t.getD (c + pos) ' ') = .ok vt)
    (hg : onehot (g.getD pos ' ') = .ok vg) :
    encode_row_pair t g c pos = .ok (vt ++ vg) := by
  rw [encode_row_pair, ht, except_bind_ok, hg, except_bind_ok, except_pure]

theorem encode_row_ctx_error_elim {t : Nt} {pos : Nat} {e : PredError}
    (h : encode_row_ctx t pos = .error e) :
    FASTA_CODES (t.getD pos ' ') = none ∧ e = .keyError (t.getD pos ' ') := by
  cases hoh : onehot (t.getD pos ' ') with
  | error e' =>
    rw [encode_row_ctx, hoh, except_bind_error] at h
    injection h with he
    subst he
    exact onehot_error_elim hoh
  | ok v =>
    rw [encode_row_ctx_ok hoh] at h
    exact Except.noConfusion h

theorem encode_row_pair_error_elim {t g : Nt} {c pos : Nat} {e : PredError}
    (h : encode_row_pair t g c pos = .error e) :
    ∃ ch, FASTA_CODES ch = none ∧ e = .keyError ch ∧
      (ch = t.getD (c + pos) ' ' ∨ ch = g.getD pos ' ') := by
  cases hot : onehot (t.getD (c + pos) ' ') with
  | error e' =>
    rw [encode_row_pair, hot, except_bind_error] at h
    injection h with he
    subst he
    obtain ⟨h1, h2⟩ := onehot_error_elim hot
    exact ⟨t.getD (c + pos) ' ', h1, h2, Or.inl rfl⟩
  | ok vt =>
    cases hog : onehot (g.getD pos ' ') with
    | error e' =>
      rw [encode_row_pair, hot, except_bind_ok, hog, except_bind_error] at h
      injection h with he
      subst he
      obtain ⟨h1, h2⟩ := onehot_error_elim hog
      exact ⟨g.getD pos ' ', h1, h2, Or.inr rfl⟩
    | ok vg =>
      rw [encode_row_pair_ok hot hog] at h
      exact Except.noConfusion h

theorem encode_pair_wf {c : Nat} {t g : Nt} (hlen : t.length = 2 * c + g.length)
    (ht : ∀ ch ∈ t, (FASTA_CODES ch).isSome)
    (hg : ∀ ch ∈ g, (FASTA_CODES ch).isSome) :
    ∃ rows, encode_pair c t g = .ok rows ∧ rows.length = 2 * c + g.length ∧
      (∀ pos, pos < c → ∃ v, onehot (t.getD pos ' ') = .ok v ∧
        rows.get? pos = some (v ++ [0, 0, 0, 0])) ∧
      (∀ pos, pos < g.length → ∃ vt vg, onehot (t.getD (c + pos) ' ') = .ok vt ∧
        onehot (g.getD pos ' ') = .ok vg ∧ rows.get? (c + pos) = some (vt ++ vg)) ∧
      (∀ pos, pos < c → ∃ v, onehot (t.getD (c + g.length + pos) ' ') = .ok v ∧
        rows.get? (c + g.length + pos) = some (v ++ [0, 0, 0, 0])) := by
  have htch : ∀ pos, pos < t.length → ∃ v, onehot (t.getD pos ' ') = .ok v :=
    fun pos hpos => onehot_ok_of_isSome (ht _ (List.get?_mem (get?_getD hpos)))
  have hgch : ∀ pos, pos < g.length → ∃ v, onehot (g.getD pos ' ') = .ok v :=
    fun pos hpos => onehot_ok_of_isSome (hg _ (List.get?_mem (get?_getD hpos)))
  have hrow1 : ∀ pos ∈ List.range c, ∃ b, encode_row_ctx t pos = .ok b := by
    intro pos hpos
    have hpc : pos < c := List.mem_range.mp hpos
    obtain ⟨v, hv⟩ := htch pos (by omega)
    exact ⟨v ++ [0, 0, 0, 0], encode_row_ctx_ok hv⟩
  have hrow2 : ∀ pos ∈ List.range g.length, ∃ b, encode_row_pair t g c pos = .ok b := by
    intro pos hpos
    have hpg : pos < g.length := List.mem_range.mp hpos
    obtain ⟨vt, hvt⟩ := htch (c + pos) (by omega)
    obtain ⟨vg, hvg⟩ := hgch pos hpg
    exact ⟨vt ++ vg, encode_row_pair_ok hvt hvg⟩
  have hrow3 : ∀ pos ∈ List.range c, ∃ b, encode_row_ctx t (c + g.length + pos) = .ok b := by
    intro pos hpos
    have hpc : pos < c := List.mem_range.mp hpos
    obtain ⟨v, hv⟩ := htch (c + g.length + pos) (by omega)
    exact ⟨v ++ [0, 0, 0, 0], encode_row_ctx_ok hv⟩
  obtain ⟨l1, h1⟩ := mapE_ok_of_forall hrow1
  obtain ⟨l2, h2⟩ := mapE_ok_of_forall hrow2
  obtain ⟨l3, h3⟩ := mapE_ok_of_forall hrow3
  have hl1 : l1.length = c := by rw [mapE_ok_length h1, List.length_range]
  have hl2 : l2.length = g.length := by rw [mapE_ok_length h2, List.length_range]
  have hl3 : l3.length = c := by rw [mapE_ok_length h3, List.length_range]
  have hl12 : (l1 ++ l2).length = c + g.length := by
    rw [List.length_append, hl1, hl2]
  refine ⟨l1 ++ l2 ++ l3, ?_, ?_, ?_, ?_, ?_⟩
  · simp only [encode_pair, if_pos hlen]
    rw [h1, except_bind_ok, h2, except_bind_ok, h3, except_bind_ok, except_pure]
  · rw [List.length_append, hl12, hl3]
    omega
  · intro pos hpos
    obtain ⟨v, hv⟩ := htch pos (by omega)
    obtain ⟨b, hb, hget⟩ := mapE_ok_get h1 (List.get?_range hpos)
    rw [encode_row_ctx_ok hv] at hb
    injection hb with hb
    subst hb
    refine ⟨v, hv, ?_⟩
    rw [List.get?_append (by rw [List.length_append, hl1, hl2]; omega),
      List.get?_append (by rw [hl1]; omega)]
    exact hget
  · intro pos hpos
    obtain ⟨vt, hvt⟩ := htch (c + pos) (by omega)
    obtain ⟨vg, hvg⟩ := hgch pos hpos
    obtain ⟨b, hb, hget⟩ := mapE_ok_get h2 (List.get?_range hpos)
    rw [encode_row_pair_ok hvt hvg] at hb
    injection hb with hb
    subst hb
    refine ⟨vt, vg, hvt, hvg, ?_⟩
    rw [List.get?_append (by rw [List.length_append, hl1, hl2]; omega),
      List.get?_append_right (by rw [hl1]; omega)]
    rw [show c + pos - l1.length = pos by omega]
    exact hget
  · intro pos hpos
    obtain ⟨v, hv⟩ := htch (c + g.length + pos) (by omega)
    obtain ⟨b, hb, hget⟩ := mapE_ok_get h3 (List.get?_range hpos)
    rw [encode_row_ctx_ok hv] at hb
    injection hb with hb
    subst hb
    refine ⟨v, hv, ?_⟩
    rw [List.get?_append_right (by rw [List.length_append, hl1, hl2]; omega)]
    rw [show c + g.length + pos - (l1 ++ l2).length = pos by rw [hl12]; omega]
    exact hget

/-- C3: for a pair over the recognized IUPAC alphabet with
`len(target) = 2*context_nt + len(guide)`, the encoder produces
`context_nt` leading context rows (target encoding, all-zero guide
half), then `len(guide)` paired rows (target encoding columns 0-3, guide
encoding columns 4-7), then `context_nt` trailing context rows, in
5'-to-3' positional order; and each base's 4-wide encoding puts weight
`1/|real_bases|` on every represented base's channel, 0 elsewhere, and
sums to 1. -/
theorem C3_encoder_layout_and_weights (c : Nat) (t g : Nt)
    (hlen : t.length = 2 * c + g.length)
    (ht : ∀ ch ∈ t, (FASTA_CODES ch).isSome)
    (hg : ∀ ch ∈ g, (FASTA_CODES ch).isSome) :
    (∃ rows, encode_pair c t g = .ok rows ∧ rows.length = 2 * c + g.length ∧
      (∀ pos, pos < c → ∃ v, onehot (t.getD pos ' ') = .ok v ∧
        rows.get? pos = some (v ++ [0, 0, 0, 0])) ∧
      (∀ pos, pos < g.length → ∃ vt vg, onehot (t.getD (c + pos) ' ') = .ok vt ∧
        onehot (g.getD pos ' ') = .ok vg ∧ rows.get? (c + pos) = some (vt ++ vg)) ∧
      (∀ pos, pos < c → ∃ v, onehot (t.getD (c + g.length + pos) ' ') = .ok v ∧
        rows.get? (c + g.length + pos) = some (v ++ [0, 0, 0, 0]))) ∧
    (∀ ch bases, FASTA_CODES ch = some bases →
      onehot ch = .ok (onehot_weights bases) ∧ (onehot_weights bases).sum = 1) :=
  ⟨encode_pair_wf hlen ht hg, onehot_spec⟩

theorem C3_encoder_layout_and_weights_witness :
    (∃ rows, encode_pair 1 ['T', 'A', 'G'] ['A'] = .ok rows ∧
      rows.length = 2 * 1 + (['A'] : Nt).length ∧
      (∀ pos, pos < 1 → ∃ v, onehot ((['T', 'A', 'G'] : Nt).getD pos ' ') = .ok v ∧
        rows.get? pos = some (v ++ [0, 0, 0, 0])) ∧
      (∀ pos, pos < (['A'] : Nt).length →
        ∃ vt vg, onehot ((['T', 'A', 'G'] : Nt).getD (1 + pos) ' ') = .ok vt ∧
          onehot ((['A'] : Nt).getD pos ' ') = .ok vg ∧
          rows.get? (1 + pos) = some (vt ++ vg)) ∧
      (∀ pos, pos < 1 →
        ∃ v, onehot ((['T', 'A', 'G'] : Nt).getD (1 + (['A'] : Nt).length + pos) ' ') = .ok v ∧
          rows.get? (1 + (['A'] : Nt).length + pos) = some (v ++ [0, 0, 0, 0]))) ∧
    (∀ ch bases, FASTA_CODES ch = some bases →
      onehot ch = .ok (onehot_weights bases) ∧ (onehot_weights bases).sum = 1) :=
  C3_encoder_layout_and_weights 1 ['T', 'A', 'G'] ['A'] (by decide) (by decide) (by decide)

theorem onehot_ok_isSome {ch : Char} {v : List Rat} (h : onehot ch = .ok v) :
    (FASTA_CODES ch).isSome := by
  cases hc : FASTA_CODES ch with
  | none =>
    unfold onehot at h
    rw [hc] at h
    exact Except.noConfusion h
  | some bases => rfl

theorem encode_row_ctx_ok_elim {t : Nt} {pos : Nat} {b : List Rat}
    (h : encode_row_ctx t pos = .ok b) :
    ∃ v, onehot (t.getD pos ' ') = .ok v := by
  cases hoh : onehot (t.getD pos ' ') with
  | error e =>
    rw [encode_row_ctx, hoh, except_bind_error] at h
    exact Except.noConfusion h
  | ok v => exact ⟨v, rfl⟩

theorem encode_row_pair_ok_elim {t g : Nt} {c pos : Nat} {b : List Rat}
    (h : encode_row_pair t g c pos = .ok b) :
    (∃ vt, onehot (t.getD (c + pos) ' ') = .ok vt) ∧
    (∃ vg, onehot (g.getD pos ' ') = .ok vg) := by
  cases hot : onehot (t.getD (c + pos) ' ') with
  | error e =>
    rw [encode_row_pair, hot, except_bind_error] at h
    exact Except.noConfusion h
  | ok vt =>
    cases hog : onehot (g.getD pos ' ') with
    | error e =>
      rw [encode_row_pair, hot, except_bind_ok, hog, except_bind_error] at h
      exact Except.noConfusion h
    | ok vg => exact ⟨⟨vt, rfl⟩, ⟨vg, rfl⟩⟩

theorem encode_ok_recognized {c : Nat} {t g : Nt} {rows : EncodedInput}
    (hlen : t.length = 2 * c + g.length) (h : encode_pair c t g = .ok rows) :
    (∀ ch ∈ t, (FASTA_CODES ch).isSome) ∧ (∀ ch ∈ g, (FASTA_CODES ch).isSome) := by
  simp only [encode_pair, if_pos hlen] at h
  cases hm1 : mapE (fun pos => encode_row_ctx t pos) (List.range c) with
  | error e => rw [hm1, except_bind_error] at h; exact Except.noConfusion h
  | ok l1 =>
  rw [hm1, except_bind_ok] at h
  cases hm2 : mapE (fun pos => encode_row_pair t g c pos) (List.range g.length) with
  | error e => rw [hm2, except_bind_error] at h; exact Except.noConfusion h
  | ok l2 =>
  rw [hm2, except_bind_ok] at h
  cases hm3 : mapE (fun pos => encode_row_ctx t (c + g.length + pos)) (List.range c) with
  | error e => rw [hm3, except_bind_error] at h; exact Except.noConfusion h
  | ok l3 =>
  constructor
  · intro ch hch
    obtain ⟨pos, hpos⟩ := List.mem_iff_get?.mp hch
    have hplen : pos < t.length := by
      by_contra hno
      rw [List.get?_eq_none.mpr (le_of_not_lt hno)] at hpos
      exact Option.noConfusion hpos
    have hchd : ch = t.getD pos ' ' := by
      rw [get?_getD hplen] at hpos
      injection hpos with hpos
      exact hpos.symm
    subst hchd
    by_cases h1 : pos < c
    · obtain ⟨b, hb⟩ := mapE_ok_forall hm1 pos (List.mem_range.mpr h1)
      obtain ⟨v, hv⟩ := encode_row_ctx_ok_elim hb
      exact onehot_ok_isSome hv
    · by_cases h2 : pos < c + g.length
      · obtain ⟨b, hb⟩ := mapE_ok_forall hm2 (pos - c)
          (List.mem_range.mpr (by omega))
        obtain ⟨⟨vt, hvt⟩, -⟩ := encode_row_pair_ok_elim hb
        rw [show c + (pos - c) = pos by omega] at hvt
        exact onehot_ok_isSome hvt
      · obtain ⟨b, hb⟩ := mapE_ok_forall hm3 (pos - (c + g.length))
          (List.mem_range.mpr (by omega))
        obtain ⟨v, hv⟩ := encode_row_ctx_ok_elim hb
        rw [show c + g.length + (pos - (c + g.length)) = pos by omega] at hv
        exact onehot_ok_isSome hv
  · intro ch hch
    obtain ⟨pos, hpos⟩ := List.mem_iff_get?.mp hch
    have hplen : pos < g.length := by
      by_contra hno
      rw [List.get?_eq_none.mpr (le_of_not_lt hno)] at hpos
      exact Option.noConfusion hpos
    have hchd : ch = g.getD pos ' ' := by
      rw [get?_getD hplen] at hpos
      injection hpos with hpos
      exact hpos.symm
    subst hchd
    obtain ⟨b, hb⟩ := mapE_ok_forall hm2 pos (List.mem_range.mpr hplen)
    obtain ⟨-, vg, hvg⟩ := encode_row_pair_ok_elim hb
    exact onehot_ok_isSome hvg

theorem encode_error_elim {c : Nat} {t g : Nt} {e : PredError}
    (hlen : t.length = 2 * c + g.length) (h : encode_pair c t g = .error e) :
    ∃ ch, FASTA_CODES ch = none ∧ (ch ∈ t ∨ ch ∈ g) ∧ e = .keyError ch := by
  simp only [encode_pair, if_pos hlen] at h
  cases hm1 : mapE (fun pos => encode_row_ctx t pos) (List.range c) with
  | error e1 =>
    rw [hm1, except_bind_error] at h
    injection h with he
    subst he
    obtain ⟨pos, hpos, hrow⟩ := mapE_error_mem hm1
    obtain ⟨hnone, hkey⟩ := encode_row_ctx_error_elim hrow
    have hplen : pos < t.length := by
      have := List.mem_range.mp hpos
      omega
    exact ⟨t.getD pos ' ', hnone, Or.inl (List.get?_mem (get?_getD hplen)), hkey⟩
  | ok l1 =>
  rw [hm1, except_bind_ok] at h
  cases hm2 : mapE (fun pos => encode_row_pair t g c pos) (List.range g.length) with
  | error e2 =>
    rw [hm2, except_bind_error] at h
    injection h with he
    subst he
    obtain ⟨pos, hpos, hrow⟩ := mapE_error_mem hm2
    obtain ⟨ch, hnone, hkey, hcase⟩ := encode_row_pair_error_elim hrow
    have hpg : pos < g.length := List.mem_range.mp hpos
    rcases hcase with hc | hc
    · refine ⟨ch, hnone, Or.inl ?_, hkey⟩
      subst hc
      exact List.get?_mem (get?_getD (by omega))
    · refine ⟨ch, hnone, Or.inr ?_, hkey⟩
      subst hc
      exact List.get?_mem (get?_getD hpg)
  | ok l2 =>
  rw [hm2, except_bind_ok] at h
  cases hm3 : mapE (fun pos => encode_row_ctx t (c + g.length + pos)) (List.range c) with
  | error e3 =>
    rw [hm3, except_bind_error] at h
    injection h with he
    subst he
    obtain ⟨pos, hpos, hrow⟩ := mapE_error_mem hm3
    obtain ⟨hnone, hkey⟩ := encode_row_ctx_error_elim hrow
    have hplen : c + g.length + pos < t.length := by
      have := List.mem_range.mp hpos
      omega
    exact ⟨t.getD (c + g.length + pos) ' ', hnone,
      Or.inl (List.get?_mem (get?_getD hplen)), hkey⟩
  | ok l3 =>
    rw [hm3, except_bind_ok, except_pure] at h
    exact Except.noConfusion h

/-- C9: an input containing a character outside the recognized IUPAC
alphabet fails to encode, raising the `KeyError` of an offending
character of the input rather than producing a matrix; an input whose
target length differs from `len(guide) + 2*context_nt` fails the length
assert rather than encoding. -/
theorem C9_encoding_error_on_bad_input (c : Nat) (t g : Nt) :
    (t.length = 2 * c + g.length →
      (∃ ch, (ch ∈ t ∨ ch ∈ g) ∧ FASTA_CODES ch = none) →
      ∃ ch, FASTA_CODES ch = none ∧ (ch ∈ t ∨ ch ∈ g) ∧
        encode_pair c t g = .error (.keyError ch)) ∧
    (t.length ≠ 2 * c + g.length → encode_pair c t g = .error .assertionError) := by
  constructor
  · intro hlen hbad
    obtain ⟨ch0, hmem0, hnone0⟩ := hbad
    cases henc : encode_pair c t g with
    | ok rows =>
      obtain ⟨hT, hG⟩ := encode_ok_recognized hlen henc
      rcases hmem0 with hm | hm
      · have := hT ch0 hm
        rw [hnone0] at this
        exact absurd this (by simp)
      · have := hG ch0 hm
        rw [hnone0] at this
        exact absurd this (by simp)
    | error e =>
      obtain ⟨ch, h1, h2, h3⟩ := encode_error_elim hlen henc
      subst h3
      exact ⟨ch, h1, h2, rfl⟩
  · intro hne
    simp [encode_pair, hne]

theorem C9_encoding_error_on_bad_input_witness :
    (∃ ch, FASTA_CODES ch = none ∧ (ch ∈ (['X'] : Nt) ∨ ch ∈ (['X'] : Nt)) ∧
      encode_pair 0 ['X'] ['X'] = .error (.keyError ch)) ∧
    encode_pair 0 ['A'] ['A', 'C'] = .error .assertionError :=
  ⟨(C9_encoding_error_on_bad_input 0 ['X'] ['X']).1 (by decide)
      ⟨'X', Or.inl (by decide), by decide⟩,
   (C9_encoding_error_on_bad_input 0 ['A'] ['A', 'C']).2 (by decide)⟩

unseal Rat.add Rat.mul Rat.sub Rat.inv Rat.ofScientific in
/-- C10 counterexample: a well-formed batch mixing guide lengths that
does NOT fail — with `context_nt = 0`, the batch
`[("AC","AC"), ("A","A")]` is sized for guide length 2, the second
pair's single-row encoding is silently broadcast by numpy into the
`(2, 8)` slot, and `_model_input_from_nt` returns encodings instead of
raising an assertion or shape error. -/
theorem C10_broadcast_counterexample :
    (∀ q ∈ [((['A', 'C'], ['A', 'C']) : Pair), ((['A'], ['A']) : Pair)],
      q.1.length = 2 * 0 + q.2.length ∧
      (∀ ch ∈ q.1, (FASTA_CODES ch).isSome) ∧
      (∀ ch ∈ q.2, (FASTA_CODES ch).isSome)) ∧
    ((['A'] : Nt).length ≠ (['A', 'C'] : Nt).length) ∧
    model_input_from_nt 0 [((['A', 'C'], ['A', 'C']) : Pair), ((['A'], ['A']) : Pair)] =
      .ok [[[1, 0, 0, 0, 1, 0, 0, 0], [0, 1, 0, 0, 0, 1, 0, 0]],
           [[1, 0, 0, 0, 1, 0, 0, 0], [1, 0, 0, 0, 1, 0, 0, 0]]] :=
  ⟨by decide, by decide, by decide⟩

/-- C10 (amended): a non-empty batch whose pairs are each well-formed
(correct target length, recognized alphabet) but which contains a pair
whose guide length differs from the first pair's fails with the numpy
shape error instead of returning encodings — the matrix is sized from
the first pair's guide length — unless that mismatched pair's encoding
is a single row (`2*context_nt + len(guide) = 1`, i.e. `context_nt = 0`
and guide length 1), which numpy silently broadcasts across the slot. -/
theorem C10_mixed_guide_lengths_shape_error (c : Nat) (pairs : List Pair)
    (p0 p : Pair) (hhead : pairs.head? = some p0)
    (hwf : ∀ q ∈ pairs, q.1.length = 2 * c + q.2.length ∧
      (∀ ch ∈ q.1, (FASTA_CODES ch).isSome) ∧ (∀ ch ∈ q.2, (FASTA_CODES ch).isSome))
    (hp : p ∈ pairs) (hmix : p.2.length ≠ p0.2.length)
    (hnb : 2 * c + p.2.length ≠ 1) :
    model_input_from_nt c pairs = .error .shapeError := by
  cases pairs with
  | nil => simp at hp
  | cons q0 tl =>
    have hq0 : q0 = p0 := by
      simp only [List.head?, Option.some.injEq] at hhead
      exact hhead
    subst hq0
    show mapE (fun pr => do
      let e ← encode_pair c pr.1 pr.2
      store_encoding (2 * c + q0.2.length) e) (q0 :: tl) = .error .shapeError
    apply mapE_error_all
    · intro q hq
      obtain ⟨hlen, hT, hG⟩ := hwf q hq
      obtain ⟨rows, henc, hrl, -, -, -⟩ := encode_pair_wf hlen hT hG
      have hfq : (encode_pair c q.1 q.2 >>= fun e =>
          store_encoding (2 * c + q0.2.length) e) =
          store_encoding (2 * c + q0.2.length) rows := by
        rw [henc, except_bind_ok]
      cases hst : store_encoding (2 * c + q0.2.length) rows with
      | ok b =>
        left
        exact ⟨b, by rw [hfq, hst]⟩
      | error err =>
        right
        rw [hfq, hst, store_encoding_error_eq hst]
    · refine ⟨p, hp, ?_⟩
      obtain ⟨hlen, hT, hG⟩ := hwf p hp
      obtain ⟨rows, henc, hrl, -, -, -⟩ := encode_pair_wf hlen hT hG
      have hfp : (encode_pair c p.1 p.2 >>= fun e =>
          store_encoding (2 * c + q0.2.length) e) =
          store_encoding (2 * c + q0.2.length) rows := by
        rw [henc, except_bind_ok]
      rw [hfp, store_encoding_err (by omega) (by rintro ⟨ha, -⟩; omega)]

theorem C10_mixed_guide_lengths_shape_error_witness :
    model_input_from_nt 0 [((['A'], ['A']) : Pair), ((['A', 'C', 'G'], ['A', 'C', 'G']) : Pair)] =
      .error .shapeError :=
  C10_mixed_guide_lengths_shape_error 0
    [(['A'], ['A']), (['A', 'C', 'G'], ['A', 'C', 'G'])]
    (['A'], ['A']) (['A', 'C', 'G'], ['A', 'C', 'G']) rfl (by decide)
    (by simp) (by decide) (by decide)

unseal Rat.add Rat.mul Rat.sub Rat.inv Rat.ofScientific in
theorem broadcast_predictor_consistent : consistent broadcast_predictor := by
  intro s pr r h
  by_cases hs : (0 : Int) = s
  · subst hs
    have hm : memAt broadcast_predictor 0 = [(test_pair2, (2, true))] := rfl
    rw [hm] at h
    by_cases hp : test_pair2 = pr
    · subst hp
      rw [show alookup test_pair2 [(test_pair2, ((2 : Rat), true))] =
        some (2, true) from rfl] at h
      cases h
      decide
    · rw [show alookup pr [(test_pair2, ((2 : Rat), true))] = none by
        simp [alookup, hp]] at h
      exact Option.noConfusion h
  · have hm : memAt broadcast_predictor s = [] := by
      simp [broadcast_predictor, memAt, alookup, hs]
    rw [hm] at h
    exact Option.noConfusion h

unseal Rat.add Rat.mul Rat.sub Rat.inv Rat.ofScientific in
/-- C6 counterexample: the locus key is not inert on mixed-guide-length
requests. From the consistent state `broadcast_predictor` (guide-length-2
pair cached at locus 0 only), requesting `[test_pair2, test_pair]` at
locus 0 evaluates only the single-row pair in a batch sized for one row
(activity 1), while at locus 1 the same pair is evaluated in a batch
sized for two rows, numpy broadcasts its single row, the regressor sees
two rows, and the stored activity is 2: the two successful runs of
`compute_activity`, differing only in the locus argument, return
different result lists. -/
theorem C6_locus_counterexample :
    consistent broadcast_predictor ∧
    (compute_activity broadcast_predictor 0 [test_pair2, test_pair]).map Prod.snd =
      .ok [2, 1] ∧
    (compute_activity broadcast_predictor 1 [test_pair2, test_pair]).map Prod.snd =
      .ok [2, 2] ∧
    ([(2 : Rat), 1] : List Rat) ≠ [2, 2] :=
  ⟨broadcast_predictor_consistent, by decide, by decide, by decide⟩
